import Mathlib

/-!
# Verification of the examination seating system

A shallow embedding of the seat-allocation, seat-labelling, invigilator
assignment, persistence, and validation logic of the examination seating
repository (`backend/seating_algorithm.py`, `backend/database.py`, `app.py`),
together with proofs and refutations of the specified properties.

Database reads are modelled as explicit list-valued inputs, and database
writes as explicit list-valued outputs (the rows inserted).  Machine
randomness (`random.shuffle`) is modelled by passing the stream of values
produced by `random._randbelow` as an explicit function argument, with the
Fisher-Yates swap loop of CPython's `random.shuffle` translated literally.
-/

namespace ExamSeating

/-- A student row as produced by `_get_students_for_exams`
(`backend/seating_algorithm.py`): the fields of the `students` table joined
with the enrolled `subject_code`.  Only the fields the algorithm reads are
kept. -/
structure Student where
  student_id : String
  name : String
  department : String
  subject_code : String
deriving DecidableEq, Repr

/-- A room row as produced by `_get_available_rooms`. -/
structure Room where
  room_id : String
  rows : Nat
  cols : Nat
  capacity : Nat
deriving DecidableEq, Repr

/-- One room's seat grid, as built in `_allocate_seats`:
`[[None]*cols]*rows`, i.e. a rows×cols matrix of optional students,
modelled as a function from (0-based) coordinates to an optional occupant
(`none` outside the bounds). -/
structure Grid where
  rows : Nat
  cols : Nat
  cell : Nat → Nat → Option Student

/-- The direction list of `_strict_conflict_check` (all 8 neighbors). -/
def strictDirections : List (Int × Int) :=
  [(-1, 0), (1, 0), (0, -1), (0, 1), (-1, -1), (-1, 1), (1, -1), (1, 1)]

/-- The direction list of `_moderate_conflict_check` and
`_relaxed_conflict_check` (the 4 orthogonal neighbors). -/
def orthoDirections : List (Int × Int) :=
  [(-1, 0), (1, 0), (0, -1), (0, 1)]

/-- The bounds-checked neighbor lookup shared by the three conflict checks:
`new_row, new_col = row + dr, col + dc`, returning the occupant when
`0 <= new_row < len(grid) and 0 <= new_col < len(grid[0])`. -/
def neighborAt (g : Grid) (row col : Nat) (d : Int × Int) : Option Student :=
  if 0 ≤ (row : Int) + d.1 ∧ (row : Int) + d.1 < (g.rows : Int)
      ∧ 0 ≤ (col : Int) + d.2 ∧ (col : Int) + d.2 < (g.cols : Int) then
    g.cell ((row : Int) + d.1).toNat ((col : Int) + d.2).toNat
  else none

/-- The conflict condition used by `_strict_conflict_check` and
`_moderate_conflict_check`:
`adjacent_student['department'] == student['department'] or
adjacent_student['subject_code'] == student['subject_code']`. -/
def conflictsWith (adjacent student : Student) : Bool :=
  decide (adjacent.department = student.department) ||
    decide (adjacent.subject_code = student.subject_code)

/-- `SeatingAlgorithm._strict_conflict_check`. -/
def strictConflictCheck (student : Student) (g : Grid) (row col : Nat) : Bool :=
  strictDirections.any fun d =>
    match neighborAt g row col d with
    | some adjacent => conflictsWith adjacent student
    | none => false

/-- The conflicting-neighbor count of `_moderate_conflict_check`. -/
def moderateConflictCount (student : Student) (g : Grid) (row col : Nat) : Nat :=
  (orthoDirections.filter fun d =>
    match neighborAt g row col d with
    | some adjacent => conflictsWith adjacent student
    | none => false).length

/-- `SeatingAlgorithm._moderate_conflict_check`: rejects only when more than
one orthogonal neighbor conflicts. -/
def moderateConflictCheck (student : Student) (g : Grid) (row col : Nat) : Bool :=
  moderateConflictCount student g row col > 1

/-- `SeatingAlgorithm._relaxed_conflict_check`: only same-subject orthogonal
neighbors conflict. -/
def relaxedConflictCheck (student : Student) (g : Grid) (row col : Nat) : Bool :=
  orthoDirections.any fun d =>
    match neighborAt g row col d with
    | some adjacent => decide (adjacent.subject_code = student.subject_code)
    | none => false

/-- A conflict strategy, as stored in `self.conflict_strategies`. -/
abbrev ConflictCheck := Student → Grid → Nat → Nat → Bool

/-- A row inserted into `seating_arrangements` by `_insert_seating_record`.
`seat_row`/`seat_col` are the 1-based `row + 1`/`col + 1` values inserted;
the placed student is kept whole (the table stores `student_id` and
`subject_code`; `validate_arrangement` recovers `department` by joining
`students`/`subjects`). -/
@[ext]
structure SeatRecord where
  student : Student
  room_id : String
  seat_row : Nat
  seat_col : Nat
  exam_date : String
  session_time : String
deriving DecidableEq, Repr

/-- The running state of `_allocate_seats`: the per-room grids (in room
order), the rows inserted into the database so far, the `allocated_count`
counter and the `failed_students` list.  The `rooms_used` set and the
`conflicts_resolved` counter of the source are omitted: no verified property
mentions them. -/
structure AllocState where
  grids : List (Room × Grid)
  seatRows : List SeatRecord
  allocated : Nat
  failed : List Student

/-- The fresh grid built for a room:
`[[None for _ in range(cols)] for _ in range(rows)]`. -/
def emptyGrid (room : Room) : Grid :=
  { rows := room.rows, cols := room.cols, cell := fun _ _ => none }

/-- `grid[row][col] = student`. -/
def placeStudent (g : Grid) (row col : Nat) (s : Student) : Grid :=
  { g with cell := fun r c => if r = row ∧ c = col then some s else g.cell r c }

/-- The row-major scan over one room's seats: the cells visited by
`for row in range(rows): for col in range(cols)`. -/
def seatCandidates (g : Grid) : List (Nat × Nat) :=
  (List.range g.rows).flatMap fun r => (List.range g.cols).map fun c => (r, c)

/-- The first seat of a room at which the student can be placed: the first
visited cell that is empty (`grid[row][col] is None`) and at which the
conflict strategy does not report a conflict. -/
def findSeatInGrid (check : ConflictCheck) (s : Student) (g : Grid) :
    Option (Nat × Nat) :=
  (seatCandidates g).find? fun p =>
    decide (g.cell p.1 p.2 = none) && !(check s g p.1 p.2)

/-- Scan the rooms in order (`for room_id, room_data in room_grids.items()`)
for the first room holding a seat for the student; on success return the
updated grid list together with the `seating_arrangements` row inserted by
`_insert_seating_record` (1-based coordinates). -/
def allocInRooms (check : ConflictCheck) (s : Student)
    (exam_date session_time : String) :
    List (Room × Grid) → Option (List (Room × Grid) × SeatRecord)
  | [] => none
  | (room, g) :: rest =>
    match findSeatInGrid check s g with
    | some (row, col) =>
      some ((room, placeStudent g row col s) :: rest,
        { student := s, room_id := room.room_id,
          seat_row := row + 1, seat_col := col + 1,
          exam_date := exam_date, session_time := session_time })
    | none =>
      match allocInRooms check s exam_date session_time rest with
      | some (rest', r) => some ((room, g) :: rest', r)
      | none => none

/-- The body of the `for student in students` loop of `_allocate_seats`:
place the student at the first suitable seat, or append them to
`failed_students`. -/
def allocStep (check : ConflictCheck) (exam_date session_time : String)
    (st : AllocState) (s : Student) : AllocState :=
  match allocInRooms check s exam_date session_time st.grids with
  | some (grids', r) =>
    { grids := grids', seatRows := st.seatRows ++ [r],
      allocated := st.allocated + 1, failed := st.failed }
  | none =>
    { st with failed := st.failed ++ [s] }

/-- The initial allocation state of `_allocate_seats`. -/
def initState (rooms : List Room) : AllocState :=
  { grids := rooms.map fun room => (room, emptyGrid room),
    seatRows := [], allocated := 0, failed := [] }

/-- `SeatingAlgorithm._allocate_seats`. -/
def allocateSeats (check : ConflictCheck) (students : List Student)
    (rooms : List Room) (exam_date session_time : String) : AllocState :=
  students.foldl (allocStep check exam_date session_time) (initState rooms)

/-! ## C1: conservation of candidates -/

theorem allocStep_count (check : ConflictCheck) (d t : String)
    (st : AllocState) (s : Student) :
    (allocStep check d t st s).allocated + (allocStep check d t st s).failed.length
      = st.allocated + st.failed.length + 1 := by
  unfold allocStep
  cases allocInRooms check s d t st.grids with
  | none => simp; omega
  | some p => simp; omega

theorem allocateSeats_foldl_count (check : ConflictCheck) (d t : String)
    (students : List Student) (st : AllocState) :
    (students.foldl (allocStep check d t) st).allocated
        + (students.foldl (allocStep check d t) st).failed.length
      = st.allocated + st.failed.length + students.length := by
  induction students generalizing st with
  | nil => simp
  | cons s rest ih =>
    simp only [List.foldl_cons, List.length_cons]
    rw [ih, allocStep_count]
    omega

/-- C1: for every allocation run of `_allocate_seats`, the returned
`allocated` count plus the length of the returned `failed_students` list
equals the number of candidates given. -/
theorem allocated_plus_failed_eq_students (check : ConflictCheck)
    (students : List Student) (rooms : List Room) (d t : String) :
    (allocateSeats check students rooms d t).allocated
        + (allocateSeats check students rooms d t).failed.length
      = students.length := by
  unfold allocateSeats
  rw [allocateSeats_foldl_count]
  simp [initState]

/-! ## Seat-number formatting (`generate_seat_number` in `app.py`) -/

/-- Python's `f"{n:03d}"` for a non-negative integer: the decimal digits,
left-padded with `'0'` to a width of 3. -/
def pad3 (n : Nat) : String :=
  let s := toString n
  if s.length < 3 then String.mk (List.replicate (3 - s.length) '0') ++ s else s

/-- `generate_seat_number` (`app.py`): seat-label formatting for the four
numbering schemes.  `row` and `col` are 1-based, as passed by the callers
(`row + 1`, `col + 1`). -/
def generate_seat_number (room_id : String) (row col : Nat) (scheme : String)
    (max_cols : Nat) : String :=
  if scheme = "sequential" then
    toString ((row - 1) * max_cols + col)
  else if scheme = "row_col" then
    "R" ++ toString row ++ "C" ++ toString col
  else if scheme = "alpha_numeric" then
    let row_letter :=
      if row ≤ 26 then
        String.mk [Char.ofNat (65 + row - 1)]
      else
        String.mk [Char.ofNat (65 + (row - 27) / 26),
                   Char.ofNat (65 + (row - 27) % 26)]
    row_letter ++ toString col
  else if scheme = "room_prefix" then
    room_id ++ "-" ++ pad3 ((row - 1) * max_cols + col)
  else
    toString ((row - 1) * max_cols + col)

/-- Modelled from the spec: the bijective base-26 rendering of a positive
row number as letters (1 ↦ "A", …, 26 ↦ "Z", 27 ↦ "AA", 28 ↦ "AB", …),
which the spec claims `alpha_numeric` uses for the row.  The first argument
is recursion fuel (always sufficient at `specBase26 n := go n n`). -/
def specBase26Go : Nat → Nat → String
  | 0, _ => ""
  | fuel + 1, n =>
    if n = 0 then ""
    else specBase26Go fuel ((n - 1) / 26)
          ++ String.mk [Char.ofNat (65 + (n - 1) % 26)]

/-- Modelled from the spec: row rendered in base-26 letters
(A…Z, then AA, AB, …). -/
def specBase26 (n : Nat) : String := specBase26Go n n

theorem specBase26Go_zero (f : Nat) : specBase26Go f 0 = "" := by
  cases f <;> simp [specBase26Go]

theorem specBase26Go_small (f n : Nat) (h1 : 1 ≤ n) (h2 : n ≤ 26) (hf : 1 ≤ f) :
    specBase26Go f n = String.mk [Char.ofNat (64 + n)] := by
  cases f with
  | zero => omega
  | succ f' =>
    unfold specBase26Go
    rw [if_neg (by omega)]
    rw [Nat.div_eq_of_lt (by omega), specBase26Go_zero]
    rw [Nat.mod_eq_of_lt (show n - 1 < 26 by omega)]
    rw [show 65 + (n - 1) = 64 + n by omega]
    rfl

theorem specBase26_small (n : Nat) (h1 : 1 ≤ n) (h2 : n ≤ 26) :
    specBase26 n = String.mk [Char.ofNat (64 + n)] :=
  specBase26Go_small n n h1 h2 h1

theorem specBase26_two_letters (n : Nat) (h1 : 27 ≤ n) (h2 : n ≤ 702) :
    specBase26 n
      = String.mk [Char.ofNat (64 + (n - 1) / 26), Char.ofNat (65 + (n - 1) % 26)] := by
  obtain ⟨m, rfl⟩ : ∃ m, n = m + 1 := ⟨n - 1, by omega⟩
  show specBase26Go (m + 1) (m + 1) = _
  unfold specBase26Go
  rw [if_neg (by omega)]
  simp only [Nat.add_sub_cancel]
  rw [specBase26Go_small m (m / 26) (by omega) (by omega) (by omega)]
  rfl

/-- C7 (counterexample): the claim quantifies over every 1-based row, but at
row 703 the `alpha_numeric` scheme of `generate_seat_number` does not return
the row rendered in base-26 letters followed by the column: the code yields
`"[A1"` (the first character overflows past `'Z'`) while the base-26
rendering of 703 is `"AAA"`. -/
theorem generate_seat_number_alpha_703 :
    generate_seat_number "R1" 703 1 "alpha_numeric" 10
      ≠ specBase26 703 ++ toString 1 := by decide

/-- C7 (amended): for every room id, 1-based row and col and column count,
`generate_seat_number` returns the decimal string of `(row-1)*cols + col`
under `sequential`, the string `R{row}C{col}` under `row_col`,
`{room_id}-{seq:03d}` under `room_prefix`, and — for rows up to 702
(i.e. up to "ZZ") — the row rendered in base-26 letters concatenated with
the column number under `alpha_numeric`. -/
theorem generate_seat_number_schemes (room_id : String) (row col cols : Nat)
    (h : 1 ≤ row) :
    generate_seat_number room_id row col "sequential" cols
        = toString ((row - 1) * cols + col) ∧
    generate_seat_number room_id row col "row_col" cols
        = "R" ++ toString row ++ "C" ++ toString col ∧
    (row ≤ 702 →
      generate_seat_number room_id row col "alpha_numeric" cols
        = specBase26 row ++ toString col) ∧
    generate_seat_number room_id row col "room_prefix" cols
        = room_id ++ "-" ++ pad3 ((row - 1) * cols + col) := by
  refine ⟨by simp [generate_seat_number], by simp [generate_seat_number],
    fun h702 => ?_, by simp [generate_seat_number]⟩
  by_cases h26 : row ≤ 26
  · rw [specBase26_small row h h26]
    simp [generate_seat_number, h26, show 65 + row - 1 = 64 + row from by omega]
  · rw [specBase26_two_letters row (by omega) h702]
    have e1 : 65 + (row - 27) / 26 = 64 + (row - 1) / 26 := by
      have h27 : row - 1 = (row - 27) + 26 := by omega
      rw [h27, Nat.add_div_right _ (by omega)]
      omega
    have e2 : (row - 27) % 26 = (row - 1) % 26 := by
      have h27 : row - 1 = (row - 27) + 26 := by omega
      rw [h27, Nat.add_mod_right]
    simp [generate_seat_number, h26, e1, e2]

/-- Witness for the amended C7 theorem at room "ROOM1", row 27, col 1,
cols 10. -/
theorem generate_seat_number_schemes_witness :
    1 ≤ 27 ∧ (27 : Nat) ≤ 702 ∧
    (generate_seat_number "ROOM1" 27 1 "sequential" 10
        = toString ((27 - 1) * 10 + 1) ∧
      generate_seat_number "ROOM1" 27 1 "row_col" 10
        = "R" ++ toString 27 ++ "C" ++ toString 1 ∧
      generate_seat_number "ROOM1" 27 1 "alpha_numeric" 10
        = specBase26 27 ++ toString 1 ∧
      generate_seat_number "ROOM1" 27 1 "room_prefix" 10
        = "ROOM1" ++ "-" ++ pad3 ((27 - 1) * 10 + 1)) := by
  have h := generate_seat_number_schemes "ROOM1" 27 1 10 (by decide)
  exact ⟨by decide, by decide, h.1, h.2.1, h.2.2.1 (by decide), h.2.2.2⟩

/-! ## `SeatingAlgorithm.generate_seating_arrangement` (C8) -/

/-- An exam row as returned by `_get_exams_for_session`; only the subject
code is read downstream. -/
structure Exam where
  subject_code : String
deriving DecidableEq, Repr

/-- The result dictionary of `generate_seating_arrangement`.  `seatRows`
collects the rows inserted into `seating_arrangements` during the run
(empty on every failure return, which happens before any allocation). -/
structure GenResult where
  success : Bool
  message : String
  students_allocated : Nat
  students_failed : Nat
  seatRows : List SeatRecord
deriving Repr

/-- `SeatingAlgorithm.generate_seating_arrangement`
(`backend/seating_algorithm.py`), with the database reads (`exams`,
`students`, `rooms`) passed as inputs and the chosen arrangement strategy
passed as the function `arrange`.  The arrangement-id stamping and the
soft-clearing of prior arrangements are elided; `seatRows` records the
inserts performed by `_allocate_seats`. -/
def generateSeatingArrangement (exams : List Exam) (students : List Student)
    (rooms : List Room) (arrange : List Student → List Student)
    (check : ConflictCheck) (exam_date session_time : String) : GenResult :=
  if exams.isEmpty then
    { success := false, message := "No exams found for the specified session",
      students_allocated := 0, students_failed := 0, seatRows := [] }
  else if students.isEmpty then
    { success := false, message := "No students found for the exams",
      students_allocated := 0, students_failed := 0, seatRows := [] }
  else if rooms.isEmpty then
    { success := false, message := "No rooms available for the session",
      students_allocated := 0, students_failed := 0, seatRows := [] }
  else
    let total_capacity := (rooms.map Room.capacity).sum
    if students.length > total_capacity then
      { success := false,
        message := "Insufficient capacity. Need " ++ toString students.length
          ++ " seats, available " ++ toString total_capacity,
        students_allocated := 0, students_failed := 0, seatRows := [] }
    else
      let st := allocateSeats check (arrange students) rooms exam_date session_time
      { success := true,
        message := "Successfully allocated " ++ toString st.allocated ++ " students",
        students_allocated := st.allocated, students_failed := st.failed.length,
        seatRows := st.seatRows }

/-- C8 (counterexample): generating an arrangement for a session whose exams
have zero enrolled candidates does NOT report success: with a nonempty exam
list, an empty student list and a room available, the run returns
`success = False` with message `'No students found for the exams'`. -/
theorem generate_zero_candidates_fails :
    (generateSeatingArrangement [⟨"SUB1"⟩] [] [⟨"R1", 2, 2, 4⟩] id
        strictConflictCheck "2026-01-01" "09:00").success = false := by
  rfl

/-- C8 (amended): generating an arrangement for a session with zero
candidates places nothing and reports failure: for every nonempty exam list
and any rooms, strategy and session, the run with an empty student list
returns `success = False`, the message `'No students found for the exams'`,
and inserts no seating rows. -/
theorem generate_zero_candidates_result (exams : List Exam)
    (rooms : List Room) (arrange : List Student → List Student)
    (check : ConflictCheck) (d t : String) (hx : exams ≠ []) :
    generateSeatingArrangement exams [] rooms arrange check d t
      = { success := false, message := "No students found for the exams",
          students_allocated := 0, students_failed := 0, seatRows := [] } := by
  unfold generateSeatingArrangement
  rw [if_neg (by simpa using hx)]
  simp

/-- Witness for the amended C8 theorem. -/
theorem generate_zero_candidates_result_witness :
    ([(⟨"SUB1"⟩ : Exam)] ≠ []) ∧
    generateSeatingArrangement [⟨"SUB1"⟩] [] [⟨"R1", 2, 2, 4⟩] id
        strictConflictCheck "2026-01-01" "09:00"
      = { success := false, message := "No students found for the exams",
          students_allocated := 0, students_failed := 0, seatRows := [] } :=
  ⟨by simp,
    generate_zero_candidates_result [⟨"SUB1"⟩] [⟨"R1", 2, 2, 4⟩] id
      strictConflictCheck "2026-01-01" "09:00" (by simp)⟩

/-! ## Persistence of a regenerated arrangement (C5)

`DatabaseManager.execute_query` (`backend/database.py`) opens a fresh
connection per call and commits every non-SELECT statement before
returning (its `rollback` can only undo the single statement of the call).
A regeneration therefore persists as a sequence of independently committed
statements: the soft-clear `UPDATE` of `_clear_existing_arrangements`
followed by one `INSERT` per placed student
(`_insert_seating_record`).  A failure after the first `k` statements
leaves exactly the state produced by those `k` commits. -/

/-- A row of the `seating_arrangements` table. -/
structure ArrangementRow where
  student_id : String
  subject_code : String
  room_id : String
  seat_row : Nat
  seat_col : Nat
  exam_date : String
  session_time : String
  is_active : Bool
deriving DecidableEq, Repr

/-- The two statements issued while persisting a regenerated arrangement:
the soft-clear `UPDATE seating_arrangements SET is_active = 0 WHERE
exam_date = ? AND session_time = ?`, and the `INSERT` of one seating row
(`is_active` defaults to 1 per the schema). -/
inductive DbStatement
  | clearSession (exam_date session_time : String)
  | insertRow (r : ArrangementRow)
deriving DecidableEq, Repr

/-- Effect of one committed statement on the table. -/
def applyStatement (db : List ArrangementRow) : DbStatement → List ArrangementRow
  | .clearSession d t =>
    db.map fun r =>
      if r.exam_date = d ∧ r.session_time = t then { r with is_active := false } else r
  | .insertRow r => db ++ [r]

/-- Effect of a sequence of committed statements. -/
def applyStatements (db : List ArrangementRow) (ops : List DbStatement) :
    List ArrangementRow :=
  ops.foldl applyStatement db

/-- The statement sequence a regeneration run issues for a session:
clear-then-insert, each statement committed by its own `execute_query`
call. -/
def persistStatements (d t : String) (newRows : List ArrangementRow) :
    List DbStatement :=
  .clearSession d t :: newRows.map .insertRow

/-- The active arrangement stored for a session. -/
def activeRows (db : List ArrangementRow) (d t : String) : List ArrangementRow :=
  db.filter fun r =>
    decide (r.exam_date = d) && decide (r.session_time = t) && r.is_active

/-- C5: the clear-then-insert persistence of a regenerated arrangement is
not atomic.  Concretely: with a prior two-row arrangement stored for the
session and a new two-row arrangement being written, a failure after the
second committed statement (the soft-clear plus one insert) leaves the
session's active rows equal to just the first new row — neither the prior
arrangement nor the new one, i.e. a partially-written mixture. -/
theorem persist_midfailure_leaves_mixture :
    (activeRows (applyStatements
        [⟨"S1", "SUB1", "R1", 1, 1, "2026-01-01", "09:00", true⟩,
         ⟨"S2", "SUB1", "R1", 1, 2, "2026-01-01", "09:00", true⟩]
        ((persistStatements "2026-01-01" "09:00"
          [⟨"S1", "SUB1", "R1", 2, 2, "2026-01-01", "09:00", true⟩,
           ⟨"S2", "SUB1", "R1", 2, 1, "2026-01-01", "09:00", true⟩]).take 2))
        "2026-01-01" "09:00"
      = [⟨"S1", "SUB1", "R1", 2, 2, "2026-01-01", "09:00", true⟩])
    ∧ (activeRows (applyStatements
        [⟨"S1", "SUB1", "R1", 1, 1, "2026-01-01", "09:00", true⟩,
         ⟨"S2", "SUB1", "R1", 1, 2, "2026-01-01", "09:00", true⟩]
        ((persistStatements "2026-01-01" "09:00"
          [⟨"S1", "SUB1", "R1", 2, 2, "2026-01-01", "09:00", true⟩,
           ⟨"S2", "SUB1", "R1", 2, 1, "2026-01-01", "09:00", true⟩]).take 2))
        "2026-01-01" "09:00"
      ≠ activeRows
        [⟨"S1", "SUB1", "R1", 1, 1, "2026-01-01", "09:00", true⟩,
         ⟨"S2", "SUB1", "R1", 1, 2, "2026-01-01", "09:00", true⟩]
        "2026-01-01" "09:00")
    ∧ (activeRows (applyStatements
        [⟨"S1", "SUB1", "R1", 1, 1, "2026-01-01", "09:00", true⟩,
         ⟨"S2", "SUB1", "R1", 1, 2, "2026-01-01", "09:00", true⟩]
        ((persistStatements "2026-01-01" "09:00"
          [⟨"S1", "SUB1", "R1", 2, 2, "2026-01-01", "09:00", true⟩,
           ⟨"S2", "SUB1", "R1", 2, 1, "2026-01-01", "09:00", true⟩]).take 2))
        "2026-01-01" "09:00"
      ≠ activeRows (applyStatements
        [⟨"S1", "SUB1", "R1", 1, 1, "2026-01-01", "09:00", true⟩,
         ⟨"S2", "SUB1", "R1", 1, 2, "2026-01-01", "09:00", true⟩]
        (persistStatements "2026-01-01" "09:00"
          [⟨"S1", "SUB1", "R1", 2, 2, "2026-01-01", "09:00", true⟩,
           ⟨"S2", "SUB1", "R1", 2, 1, "2026-01-01", "09:00", true⟩]))
        "2026-01-01" "09:00") := by
  refine ⟨by decide, by decide, by decide⟩

/-! ## Invigilator assignment (C6): `assign_invigilators` and
`manual_assign_invigilator` in `app.py` -/

/-- A row of the `invigilator_assignments` table. -/
structure InvAssignment where
  staff_id : String
  room_id : String
  exam_date : String
  session_time : String
  subject_code : String
  is_active : Bool
deriving DecidableEq, Repr

/-- A row of the `invigilators` table (the fields read by the two paths). -/
structure Invigilator where
  staff_id : String
  name : String
deriving DecidableEq, Repr

/-- A row of the `rooms` table as read by the manual path's JOIN. -/
structure RoomName where
  room_id : String
  name : String
deriving DecidableEq, Repr

/-- A room of the session in the balanced path (`rooms_with_students`),
together with its precomputed primary subject (the `primary_subject` query:
the most-enrolled subject seated in the room, `none` when the room has no
seating rows). -/
structure SessionRoom where
  room_id : String
  primary_subject : Option String
deriving DecidableEq, Repr

/-- The conflict predicate both paths use:
`staff_id = ? AND exam_date = ? AND session_time = ? AND is_active = 1`. -/
def invMatch (staff d t : String) (a : InvAssignment) : Bool :=
  decide (a.staff_id = staff) && decide (a.exam_date = d)
    && decide (a.session_time = t) && a.is_active

/-- The balanced path's conflict count:
`SELECT COUNT(*) FROM invigilator_assignments WHERE staff_id = ? AND
exam_date = ? AND session_time = ? AND is_active = 1` (evaluated on the
connection's current view, which includes rows inserted earlier in the
same loop). -/
def countActiveAssignments (db : List InvAssignment) (staff d t : String) : Nat :=
  (db.filter (invMatch staff d t)).length

/-- The loop state of the balanced strategy in `assign_invigilators`:
the table contents as seen by the open connection, the cycling
`invigilator_index`, and `assignments_made`. -/
structure BalancedState where
  db : List InvAssignment
  idx : Nat
  made : Nat

/-- The index reset at the top of the balanced loop:
`if invigilator_index >= len(available_invigilators): invigilator_index = 0`. -/
def balancedIdx (avail : List Invigilator) (st : BalancedState) : Nat :=
  if avail.length ≤ st.idx then 0 else st.idx

/-- `invigilator = available_invigilators[invigilator_index]` (the
surrounding route already guarantees the available list is nonempty, so the
default is never used). -/
def balancedPick (avail : List Invigilator) (idx : Nat) : Invigilator :=
  avail.getD idx ⟨"", ""⟩

/-- One iteration of `for room in rooms_with_students` under
`strategy == 'balanced'`: reset the index when it runs past the available
list, pick the invigilator, insert a row (with `is_active = 1`) only when
the conflict count is zero and the room has a primary subject, and advance
the index. -/
def balancedStep (avail : List Invigilator) (d t : String)
    (st : BalancedState) (room : SessionRoom) : BalancedState :=
  if countActiveAssignments st.db
      (balancedPick avail (balancedIdx avail st)).staff_id d t = 0 then
    match room.primary_subject with
    | some subj =>
      { db := st.db ++ [⟨(balancedPick avail (balancedIdx avail st)).staff_id,
          room.room_id, d, t, subj, true⟩],
        idx := balancedIdx avail st + 1, made := st.made + 1 }
    | none => { st with idx := balancedIdx avail st + 1 }
  else { st with idx := balancedIdx avail st + 1 }

/-- The balanced strategy of `assign_invigilators` (`app.py`): round-robin
over the session's rooms. -/
def assignInvigilatorsBalanced (rooms : List SessionRoom)
    (avail : List Invigilator) (d t : String) (db : List InvAssignment) :
    BalancedState :=
  rooms.foldl (balancedStep avail d t) ⟨db, 0, 0⟩

/-- The conflict row fetched by `manual_assign_invigilator`: the matching
assignment joined with `rooms` (for `room_name`) and `invigilators`
(for `invigilator_name`); `fetchone` is modelled as the first matching
row that joins. -/
def findManualConflict (db : List InvAssignment) (roomsTable : List RoomName)
    (invTable : List Invigilator) (staff d t : String) :
    Option (InvAssignment × String × String) :=
  (db.filterMap fun a =>
    if invMatch staff d t a then
      match roomsTable.find? (fun r => decide (r.room_id = a.room_id)),
          invTable.find? (fun i => decide (i.staff_id = a.staff_id)) with
      | some r, some i => some (a, r.name, i.name)
      | _, _ => none
    else none).head?

/-- Outcome of the manual path: either the flash message of the rejection,
or a successful insert. -/
inductive ManualOutcome
  | rejected (message : String)
  | assigned
deriving DecidableEq, Repr

/-- `manual_assign_invigilator` (`app.py`): reject with the warning message
when the staff member already holds an active assignment for the exact
session, otherwise insert the new row. -/
def manualAssignInvigilator (staff room_id d t subject : String)
    (db : List InvAssignment) (roomsTable : List RoomName)
    (invTable : List Invigilator) : ManualOutcome × List InvAssignment :=
  match findManualConflict db roomsTable invTable staff d t with
  | some (_, room_name, inv_name) =>
    (.rejected ("Warning: " ++ inv_name ++ " is already assigned to "
      ++ room_name ++ " at " ++ t ++ " on " ++ d ++ "!"), db)
  | none => (.assigned, db ++ [⟨staff, room_id, d, t, subject, true⟩])

theorem balancedStep_filter_eq (avail : List Invigilator) (d t X : String)
    (db0 : List InvAssignment) (hheld : 1 ≤ (db0.filter (invMatch X d t)).length)
    (st : BalancedState) (room : SessionRoom)
    (hst : st.db.filter (invMatch X d t) = db0.filter (invMatch X d t)) :
    (balancedStep avail d t st room).db.filter (invMatch X d t)
      = db0.filter (invMatch X d t) := by
  unfold balancedStep
  by_cases hc : countActiveAssignments st.db
      (balancedPick avail (balancedIdx avail st)).staff_id d t = 0
  · rw [if_pos hc]
    cases hps : room.primary_subject with
    | none => simpa using hst
    | some subj =>
      simp only [List.filter_append, hst]
      have hne : (balancedPick avail (balancedIdx avail st)).staff_id ≠ X := by
        intro hXeq
        rw [countActiveAssignments, hXeq, hst] at hc
        omega
      have hrow : invMatch X d t
          ⟨(balancedPick avail (balancedIdx avail st)).staff_id,
            room.room_id, d, t, subj, true⟩ = false := by
        simp [invMatch, hne]
      simp [hrow]
  · rw [if_neg hc]
    simpa using hst

theorem balanced_fold_filter_eq (avail : List Invigilator) (d t X : String)
    (db0 : List InvAssignment) (hheld : 1 ≤ (db0.filter (invMatch X d t)).length)
    (rooms : List SessionRoom) (st : BalancedState)
    (hst : st.db.filter (invMatch X d t) = db0.filter (invMatch X d t)) :
    (rooms.foldl (balancedStep avail d t) st).db.filter (invMatch X d t)
      = db0.filter (invMatch X d t) := by
  induction rooms generalizing st with
  | nil => simpa using hst
  | cons room rest ih =>
    exact ih _ (balancedStep_filter_eq avail d t X db0 hheld st room hst)

theorem findManualConflict_of_first (db : List InvAssignment)
    (roomsTable : List RoomName) (invTable : List Invigilator)
    (staff d t : String) (a0 : InvAssignment) (r0 : RoomName) (i0 : Invigilator)
    (h0 : (db.filter (invMatch staff d t)).head? = some a0)
    (hr : roomsTable.find? (fun r => decide (r.room_id = a0.room_id)) = some r0)
    (hi : invTable.find? (fun i => decide (i.staff_id = a0.staff_id)) = some i0) :
    findManualConflict db roomsTable invTable staff d t
      = some (a0, r0.name, i0.name) := by
  induction db with
  | nil => simp at h0
  | cons a rest ih =>
    by_cases hm : invMatch staff d t a
    · rw [List.filter_cons_of_pos hm] at h0
      simp only [List.head?_cons, Option.some_inj] at h0
      subst h0
      unfold findManualConflict
      simp only [List.filterMap_cons, hm, if_pos rfl, hr, hi]
      rfl
    · rw [List.filter_cons_of_neg (by simpa using hm)] at h0
      have := ih h0
      unfold findManualConflict at this ⊢
      simp only [List.filterMap_cons, hm]
      simpa using this

/-- C6: if staff X already holds an active invigilator assignment for the
session (D, T), neither path creates a second assignment for X at (D, T).
The balanced auto-assignment leaves the set of X's active rows for the
session unchanged (the conflict check fails, so the insert is skipped),
and the manual path returns the database unchanged together with a warning
message naming the room X already holds. -/
theorem no_invigilator_double_booking (d t X : String)
    (db : List InvAssignment)
    (hheld : 1 ≤ (db.filter (invMatch X d t)).length) :
    (∀ (rooms : List SessionRoom) (avail : List Invigilator),
      (assignInvigilatorsBalanced rooms avail d t db).db.filter (invMatch X d t)
        = db.filter (invMatch X d t))
    ∧ (∀ (room_id subject : String) (roomsTable : List RoomName)
        (invTable : List Invigilator) (a0 : InvAssignment) (r0 : RoomName)
        (i0 : Invigilator),
        (db.filter (invMatch X d t)).head? = some a0 →
        roomsTable.find? (fun r => decide (r.room_id = a0.room_id)) = some r0 →
        invTable.find? (fun i => decide (i.staff_id = a0.staff_id)) = some i0 →
        manualAssignInvigilator X room_id d t subject db roomsTable invTable
          = (.rejected ("Warning: " ++ i0.name ++ " is already assigned to "
              ++ r0.name ++ " at " ++ t ++ " on " ++ d ++ "!"), db)) := by
  constructor
  · intro rooms avail
    exact balanced_fold_filter_eq avail d t X db hheld rooms ⟨db, 0, 0⟩ rfl
  · intro room_id subject roomsTable invTable a0 r0 i0 h0 hr hi
    unfold manualAssignInvigilator
    rw [findManualConflict_of_first db roomsTable invTable X d t a0 r0 i0 h0 hr hi]

/-- Witness for C6: staff "ST1" already holds Room A at the session; the
balanced pass over Room B skips them and the manual path rejects with the
message naming Room A. -/
theorem no_invigilator_double_booking_witness :
    (1 ≤ (([⟨"ST1", "R-A", "2026-01-01", "09:00", "SUB1", true⟩] :
        List InvAssignment).filter (invMatch "ST1" "2026-01-01" "09:00")).length)
    ∧ ((assignInvigilatorsBalanced [⟨"R-B", some "SUB1"⟩] [⟨"ST1", "Alice"⟩]
          "2026-01-01" "09:00"
          [⟨"ST1", "R-A", "2026-01-01", "09:00", "SUB1", true⟩]).db.filter
        (invMatch "ST1" "2026-01-01" "09:00")
        = ([⟨"ST1", "R-A", "2026-01-01", "09:00", "SUB1", true⟩] :
            List InvAssignment).filter (invMatch "ST1" "2026-01-01" "09:00"))
    ∧ (manualAssignInvigilator "ST1" "R-B" "2026-01-01" "09:00" "SUB1"
        [⟨"ST1", "R-A", "2026-01-01", "09:00", "SUB1", true⟩]
        [⟨"R-A", "Room A"⟩, ⟨"R-B", "Room B"⟩] [⟨"ST1", "Alice"⟩]
        = (.rejected ("Warning: " ++ "Alice" ++ " is already assigned to "
            ++ "Room A" ++ " at " ++ "09:00" ++ " on " ++ "2026-01-01" ++ "!"),
          [⟨"ST1", "R-A", "2026-01-01", "09:00", "SUB1", true⟩])) := by
  have h := no_invigilator_double_booking "2026-01-01" "09:00" "ST1"
    [⟨"ST1", "R-A", "2026-01-01", "09:00", "SUB1", true⟩] (by decide)
  refine ⟨by decide, h.1 [⟨"R-B", some "SUB1"⟩] [⟨"ST1", "Alice"⟩], ?_⟩
  exact h.2 "R-B" "SUB1" [⟨"R-A", "Room A"⟩, ⟨"R-B", "Room B"⟩]
    [⟨"ST1", "Alice"⟩] ⟨"ST1", "R-A", "2026-01-01", "09:00", "SUB1", true⟩
    ⟨"R-A", "Room A"⟩ ⟨"ST1", "Alice"⟩ (by decide) (by decide) (by decide)

/-! ## Arrangement strategies (C9)

`_mixed_arrangement` copies the student list and calls `random.shuffle`;
CPython's `random.shuffle` is the Fisher-Yates loop
`for i in reversed(range(1, len(x))): j = _randbelow(i + 1); swap x[i], x[j]`.
The random source is passed explicitly: `rand i % (i + 1)` stands for the
value `_randbelow(i + 1)` drawn at loop index `i`. -/

/-- The parallel assignment `x[i], x[j] = x[j], x[i]` (a no-op when an index
is out of range, which the shuffle loop never produces). -/
def swapAt (l : List Student) (i j : Nat) : List Student :=
  match l[i]?, l[j]? with
  | some a, some b => (l.set i b).set j a
  | _, _ => l

/-- The shuffle loop, counting the loop index `i` down to 1. -/
def shuffleGo (rand : Nat → Nat) : Nat → List Student → List Student
  | 0, l => l
  | i + 1, l => shuffleGo rand i (swapAt l (i + 1) (rand (i + 1) % (i + 2)))

/-- `random.shuffle` on a list. -/
def shuffle (rand : Nat → Nat) (l : List Student) : List Student :=
  shuffleGo rand (l.length - 1) l

/-- `SeatingAlgorithm._mixed_arrangement`. -/
def mixedArrangement (rand : Nat → Nat) (students : List Student) :
    List Student :=
  shuffle rand students

/-- `SeatingAlgorithm._random_arrangement` (delegates to
`_mixed_arrangement`). -/
def randomArrangement (rand : Nat → Nat) (students : List Student) :
    List Student :=
  mixedArrangement rand students

/-- `SeatingAlgorithm._alphabetical_arrangement`:
`sorted(students, key=lambda x: x['name'])`. -/
def alphabeticalArrangement (students : List Student) : List Student :=
  students.mergeSort fun a b => decide (a.name ≤ b.name)

/-- Appending a student to their department's bucket, preserving the
insertion order of `defaultdict`: the grouping effect of
`dept_groups[student['department']].append(student)`. -/
def insertIntoGroups (groups : List (String × List Student)) (s : Student) :
    List (String × List Student) :=
  match groups with
  | [] => [(s.department, [s])]
  | (d, g) :: rest =>
    if d = s.department then (d, g ++ [s]) :: rest
    else (d, g) :: insertIntoGroups rest s

/-- The `dept_groups` dictionary of `_department_wise_arrangement`, as an
insertion-ordered association list. -/
def groupByDepartment (students : List Student) :
    List (String × List Student) :=
  students.foldl insertIntoGroups []

/-- The `for dept, dept_students in dept_groups.items()` loop: shuffle each
bucket (each `random.shuffle` call drawing from its own slice `rands i` of
the global random source) and concatenate. -/
def shuffleGroups (rands : Nat → Nat → Nat) :
    Nat → List (String × List Student) → List Student
  | _, [] => []
  | i, (_, g) :: rest => mixedArrangement (rands i) g ++ shuffleGroups rands (i + 1) rest

/-- `SeatingAlgorithm._department_wise_arrangement`. -/
def departmentWiseArrangement (rands : Nat → Nat → Nat)
    (students : List Student) : List Student :=
  shuffleGroups rands 0 (groupByDepartment students)

theorem perm_cons_set (t : List Student) (k : Nat) (c v : Student)
    (h : t[k]? = some c) : (c :: t.set k v).Perm (v :: t) := by
  induction t generalizing k with
  | nil => simp at h
  | cons x t' ih =>
    cases k with
    | zero =>
      simp only [List.getElem?_cons_zero, Option.some_inj] at h
      subst h
      exact List.Perm.swap _ _ _
    | succ k' =>
      simp only [List.getElem?_cons_succ] at h
      exact ((List.Perm.swap x c _).trans ((ih k' h).cons x)).trans
        (List.Perm.swap v x t')

theorem set_set_perm (l : List Student) (i j : Nat) (a b : Student)
    (hi : l[i]? = some a) (hj : l[j]? = some b) :
    ((l.set i b).set j a).Perm l := by
  induction l generalizing i j with
  | nil => simp at hi
  | cons x t ih =>
    cases i with
    | zero =>
      simp only [List.getElem?_cons_zero, Option.some_inj] at hi
      subst hi
      cases j with
      | zero =>
        simp only [List.getElem?_cons_zero, Option.some_inj] at hj
        subst hj
        exact List.Perm.refl _
      | succ k =>
        simp only [List.getElem?_cons_succ] at hj
        exact perm_cons_set t k b _ hj
    | succ m =>
      simp only [List.getElem?_cons_succ] at hi
      cases j with
      | zero =>
        simp only [List.getElem?_cons_zero, Option.some_inj] at hj
        subst hj
        exact perm_cons_set t m a _ hi
      | succ k =>
        simp only [List.getElem?_cons_succ] at hj
        exact (ih m k hi hj).cons x

theorem swapAt_perm (l : List Student) (i j : Nat) : (swapAt l i j).Perm l := by
  unfold swapAt
  cases hi : l[i]? with
  | none => exact List.Perm.refl l
  | some a =>
    cases hj : l[j]? with
    | none => exact List.Perm.refl l
    | some b => exact set_set_perm l i j a b hi hj

theorem shuffleGo_perm (rand : Nat → Nat) (i : Nat) (l : List Student) :
    (shuffleGo rand i l).Perm l := by
  induction i generalizing l with
  | zero => exact List.Perm.refl l
  | succ i ih =>
    exact (ih _).trans (swapAt_perm l (i + 1) (rand (i + 1) % (i + 2)))

theorem shuffle_perm (rand : Nat → Nat) (l : List Student) :
    (shuffle rand l).Perm l :=
  shuffleGo_perm rand (l.length - 1) l

/-- The concatenation of the buckets of an association list. -/
def joinGroups (gs : List (String × List Student)) : List Student :=
  (gs.map Prod.snd).flatten

theorem insertIntoGroups_join (gs : List (String × List Student)) (s : Student) :
    (joinGroups (insertIntoGroups gs s)).Perm (joinGroups gs ++ [s]) := by
  induction gs with
  | nil => simp [insertIntoGroups, joinGroups]
  | cons p rest ih =>
    obtain ⟨d, g⟩ := p
    by_cases hd : d = s.department
    · simp only [insertIntoGroups, if_pos hd, joinGroups, List.map_cons,
        List.flatten_cons]
      rw [List.append_assoc, List.append_assoc]
      exact List.Perm.append_left g List.perm_append_comm
    · simp only [insertIntoGroups, if_neg hd, joinGroups, List.map_cons,
        List.flatten_cons]
      rw [List.append_assoc]
      exact List.Perm.append_left g
        (by simpa [joinGroups] using ih)

theorem groupByDepartment_fold_join (l : List Student)
    (acc : List (String × List Student)) :
    (joinGroups (l.foldl insertIntoGroups acc)).Perm (joinGroups acc ++ l) := by
  induction l generalizing acc with
  | nil => simp
  | cons s rest ih =>
    simp only [List.foldl_cons]
    have e : (joinGroups acc ++ [s]) ++ rest = joinGroups acc ++ (s :: rest) := by
      simp
    exact (ih _).trans (e ▸ (insertIntoGroups_join acc s).append_right rest)

theorem shuffleGroups_perm (rands : Nat → Nat → Nat) (i : Nat)
    (gs : List (String × List Student)) :
    (shuffleGroups rands i gs).Perm (joinGroups gs) := by
  induction gs generalizing i with
  | nil => simp [shuffleGroups, joinGroups]
  | cons p rest ih =>
    obtain ⟨d, g⟩ := p
    simp only [shuffleGroups, joinGroups, List.map_cons, List.flatten_cons]
    exact (shuffle_perm (rands i) g).append (ih (i + 1))

/-- C9: every arrangement-ordering strategy of `SeatingAlgorithm`
(`_mixed_arrangement`, `_department_wise_arrangement`,
`_random_arrangement`, `_alphabetical_arrangement`) returns a permutation
of its input list of students, for every random source. -/
theorem arrangement_strategies_permute (rand : Nat → Nat)
    (rands : Nat → Nat → Nat) (students : List Student) :
    (mixedArrangement rand students).Perm students ∧
    (departmentWiseArrangement rands students).Perm students ∧
    (randomArrangement rand students).Perm students ∧
    (alphabeticalArrangement students).Perm students := by
  refine ⟨shuffle_perm rand students, ?_, shuffle_perm rand students,
    List.mergeSort_perm students _⟩
  have e : joinGroups [] ++ students = students := by simp [joinGroups]
  exact (shuffleGroups_perm rands 0 _).trans
    (e ▸ groupByDepartment_fold_join students [])

/-! ## Allocation invariants (C2, C3, C4) -/

/-- Well-formedness of a grid: no occupant outside the rows×cols bounds
(the source's 2-D array has no cells there at all). -/
def wfGrid (g : Grid) : Prop :=
  ∀ r c, g.rows ≤ r ∨ g.cols ≤ c → g.cell r c = none

/-- Two 0-based positions adjacent in one of the 8 directions inspected by
`_strict_conflict_check`. -/
def Adjacent8 (r1 c1 r2 c2 : Nat) : Prop :=
  ∃ dd ∈ strictDirections,
    (r2 : Int) = (r1 : Int) + dd.1 ∧ (c2 : Int) = (c1 : Int) + dd.2

/-- Out-of-range default used to state properties of `grids` without a
dependent index. -/
def defaultRoomGrid : Room × Grid :=
  (⟨"", 0, 0, 0⟩, emptyGrid ⟨"", 0, 0, 0⟩)

theorem mem_seatCandidates {g : Grid} {p : Nat × Nat}
    (h : p ∈ seatCandidates g) : p.1 < g.rows ∧ p.2 < g.cols := by
  unfold seatCandidates at h
  simp only [List.mem_flatMap, List.mem_map, List.mem_range] at h
  obtain ⟨r, hr, c, hc, rfl⟩ := h
  exact ⟨hr, hc⟩

theorem findSeatInGrid_spec {check : ConflictCheck} {s : Student} {g : Grid}
    {row col : Nat} (h : findSeatInGrid check s g = some (row, col)) :
    row < g.rows ∧ col < g.cols ∧ g.cell row col = none
      ∧ check s g row col = false := by
  unfold findSeatInGrid at h
  have hmem := List.mem_of_find?_eq_some h
  have hp := List.find?_some h
  simp only [Bool.and_eq_true, decide_eq_true_eq, Bool.not_eq_true'] at hp
  have hb := mem_seatCandidates hmem
  exact ⟨hb.1, hb.2, hp.1, hp.2⟩

theorem allocInRooms_some {check : ConflictCheck} {s : Student} {d t : String}
    {gs gs' : List (Room × Grid)} {r : SeatRecord}
    (h : allocInRooms check s d t gs = some (gs', r)) :
    ∃ pre room g post row col,
      gs = pre ++ (room, g) :: post ∧
      gs' = pre ++ (room, placeStudent g row col s) :: post ∧
      findSeatInGrid check s g = some (row, col) ∧
      r = ⟨s, room.room_id, row + 1, col + 1, d, t⟩ := by
  induction gs generalizing gs' with
  | nil => simp [allocInRooms] at h
  | cons hd tl ih =>
    obtain ⟨room, g⟩ := hd
    unfold allocInRooms at h
    cases hf : findSeatInGrid check s g with
    | some rc =>
      obtain ⟨row, col⟩ := rc
      rw [hf] at h
      simp only [Option.some_inj, Prod.mk.injEq] at h
      obtain ⟨rfl, rfl⟩ := h
      exact ⟨[], room, g, tl, row, col, rfl, rfl, hf, rfl⟩
    | none =>
      rw [hf] at h
      cases hrec : allocInRooms check s d t tl with
      | none => rw [hrec] at h; simp at h
      | some p =>
        obtain ⟨tl', r'⟩ := p
        rw [hrec] at h
        simp only [Option.some_inj, Prod.mk.injEq] at h
        obtain ⟨h1, rfl⟩ := h
        obtain ⟨pre, room', g', post, row, col, htl, htl', hf', hr⟩ := ih hrec
        exact ⟨(room, g) :: pre, room', g', post, row, col,
          by rw [htl, List.cons_append], by rw [← h1, htl', List.cons_append],
          hf', hr⟩

theorem placeStudent_cell (g : Grid) (row col : Nat) (s : Student) (r c : Nat) :
    (placeStudent g row col s).cell r c
      = if r = row ∧ c = col then some s else g.cell r c := rfl

theorem placeStudent_wf {g : Grid} {row col : Nat} {s : Student}
    (hwf : wfGrid g) (hrow : row < g.rows) (hcol : col < g.cols) :
    wfGrid (placeStudent g row col s) := by
  intro r c hout
  rw [placeStudent_cell]
  rw [if_neg]
  · exact hwf r c hout
  · rintro ⟨rfl, rfl⟩
    simp only [placeStudent] at hout
    rcases hout with hout | hout <;> omega

theorem neighborAt_of_cell {g : Grid} {row col r2 c2 : Nat} {s2 : Student}
    {dd : Int × Int} (hwf : wfGrid g) (hc : g.cell r2 c2 = some s2)
    (h1 : (r2 : Int) = (row : Int) + dd.1)
    (h2 : (c2 : Int) = (col : Int) + dd.2) :
    neighborAt g row col dd = some s2 := by
  have hb : r2 < g.rows ∧ c2 < g.cols := by
    by_contra hcon
    have : g.rows ≤ r2 ∨ g.cols ≤ c2 := by omega
    rw [hwf r2 c2 this] at hc
    exact Option.noConfusion hc
  unfold neighborAt
  rw [if_pos (by omega)]
  have e1 : ((row : Int) + dd.1).toNat = r2 := by omega
  have e2 : ((col : Int) + dd.2).toNat = c2 := by omega
  rw [e1, e2, hc]

theorem conflictsWith_comm (a b : Student) :
    conflictsWith a b = conflictsWith b a := by
  unfold conflictsWith
  rcases Decidable.em (a.department = b.department) with h1 | h1 <;>
    rcases Decidable.em (a.subject_code = b.subject_code) with h2 | h2
  · rw [h1, h2]
  · rw [h1]
    simp
  · rw [h2]
    simp
  · have h1' : ¬ b.department = a.department := fun e => h1 e.symm
    have h2' : ¬ b.subject_code = a.subject_code := fun e => h2 e.symm
    simp [h1, h2, h1', h2']

theorem strictCheck_false {s : Student} {g : Grid} {row col : Nat}
    (h : strictConflictCheck s g row col = false) :
    ∀ dd ∈ strictDirections, ∀ adj,
      neighborAt g row col dd = some adj → conflictsWith adj s = false := by
  intro dd hdd adj hadj
  unfold strictConflictCheck at h
  rw [List.any_eq_false] at h
  have := h dd hdd
  rw [hadj] at this
  simpa using this

/-- The strict adjacency invariant: no two occupants of 8-adjacent cells
share a department or a subject. -/
def NoStrictConflicts (g : Grid) : Prop :=
  ∀ r1 c1 r2 c2 s1 s2, g.cell r1 c1 = some s1 → g.cell r2 c2 = some s2 →
    Adjacent8 r1 c1 r2 c2 → conflictsWith s1 s2 = false

theorem strictDirections_neg_mem :
    ∀ dd ∈ strictDirections, (-dd.1, -dd.2) ∈ strictDirections := by decide

theorem not_adjacent8_self (r c : Nat) : ¬ Adjacent8 r c r c := by
  rintro ⟨dd, hdd, h1, h2⟩
  have e1 : dd.1 = 0 := by omega
  have e2 : dd.2 = 0 := by omega
  have : dd = ((0 : Int), (0 : Int)) := Prod.ext e1 e2
  rw [this] at hdd
  exact absurd hdd (by decide)

theorem place_preserves_noStrict {g : Grid} {row col : Nat} {s : Student}
    (hwf : wfGrid g) (hnc : NoStrictConflicts g)
    (hempty : g.cell row col = none)
    (hcheck : strictConflictCheck s g row col = false) :
    NoStrictConflicts (placeStudent g row col s) := by
  intro r1 c1 r2 c2 s1 s2 h1 h2 hadj
  rw [placeStudent_cell] at h1 h2
  by_cases e1 : r1 = row ∧ c1 = col <;> by_cases e2 : r2 = row ∧ c2 = col
  · obtain ⟨rfl, rfl⟩ := e1
    obtain ⟨rfl, rfl⟩ := e2
    exact absurd hadj (not_adjacent8_self _ _)
  · -- the new occupant and an old neighbor
    obtain ⟨rfl, rfl⟩ := e1
    rw [if_pos ⟨rfl, rfl⟩, Option.some_inj] at h1
    rw [if_neg e2] at h2
    subst h1
    obtain ⟨dd, hdd, ha1, ha2⟩ := hadj
    have hn := neighborAt_of_cell hwf h2 ha1 ha2
    have := strictCheck_false hcheck dd hdd s2 hn
    rw [conflictsWith_comm]
    exact this
  · -- an old occupant and the new one
    obtain ⟨rfl, rfl⟩ := e2
    rw [if_pos ⟨rfl, rfl⟩, Option.some_inj] at h2
    rw [if_neg e1] at h1
    subst h2
    obtain ⟨dd, hdd, ha1, ha2⟩ := hadj
    have hrev1 : (r1 : Int) = (r2 : Int) + (-dd.1) := by omega
    have hrev2 : (c1 : Int) = (c2 : Int) + (-dd.2) := by omega
    have hn := @neighborAt_of_cell g r2 c2 r1 c1 s1 (-dd.1, -dd.2)
      hwf h1 hrev1 hrev2
    exact strictCheck_false hcheck (-dd.1, -dd.2)
      (strictDirections_neg_mem dd hdd) s1 hn
  · rw [if_neg e1] at h1
    rw [if_neg e2] at h2
    exact hnc r1 c1 r2 c2 s1 s2 h1 h2 hadj

/-- The per-room invariant carried through a strict-policy run. -/
def GridsOk (st : AllocState) : Prop :=
  ∀ pr ∈ st.grids, wfGrid pr.2 ∧ NoStrictConflicts pr.2

theorem allocStep_strict_gridsOk (d t : String) (st : AllocState) (s : Student)
    (h : GridsOk st) : GridsOk (allocStep strictConflictCheck d t st s) := by
  unfold allocStep
  cases halloc : allocInRooms strictConflictCheck s d t st.grids with
  | none => exact h
  | some p =>
    obtain ⟨gs', r⟩ := p
    obtain ⟨pre, room, g, post, row, col, hgs, hgs', hf, hr⟩ :=
      allocInRooms_some halloc
    intro pr hpr
    simp only at hpr
    rw [hgs'] at hpr
    rcases List.mem_append.mp hpr with hpre | hrest
    · exact h pr (by rw [hgs]; exact List.mem_append_left _ hpre)
    · rcases List.mem_cons.mp hrest with rfl | hpost
      · have hold := h (room, g)
          (by rw [hgs]; exact List.mem_append_right _ (List.mem_cons_self _ _))
        obtain ⟨hrow, hcol, hempty, hcheck⟩ := findSeatInGrid_spec hf
        exact ⟨placeStudent_wf hold.1 hrow hcol,
          place_preserves_noStrict hold.1 hold.2 hempty hcheck⟩
      · exact h pr
          (by rw [hgs]; exact List.mem_append_right _ (List.mem_cons_of_mem _ hpost))

theorem allocateSeats_strict_gridsOk (students : List Student)
    (rooms : List Room) (d t : String) :
    GridsOk (allocateSeats strictConflictCheck students rooms d t) := by
  unfold allocateSeats
  have hinit : GridsOk (initState rooms) := by
    intro pr hpr
    simp only [initState, List.mem_map] at hpr
    obtain ⟨room, _, rfl⟩ := hpr
    constructor
    · intro r c _
      rfl
    · intro r1 c1 r2 c2 s1 s2 h1 _ _
      exact absurd h1 (by simp [emptyGrid])
  generalize hst : initState rooms = st at hinit
  clear hst
  induction students generalizing st with
  | nil => exact hinit
  | cons s rest ih =>
    exact ih _ (allocStep_strict_gridsOk d t st s hinit)

/-- C2: after any allocation run under the Strict conflict policy, no two
occupants of 8-adjacent cells of the same room grid share a department or
a subject: every placed candidate has no neighbor, in any of the 8
surrounding cells, from the same department or the same subject. -/
theorem strict_no_adjacent_conflicts (students : List Student)
    (rooms : List Room) (d t : String) (i r1 c1 r2 c2 : Nat) (s1 s2 : Student)
    (h1 : ((allocateSeats strictConflictCheck students rooms d t).grids.getD i
        defaultRoomGrid).2.cell r1 c1 = some s1)
    (h2 : ((allocateSeats strictConflictCheck students rooms d t).grids.getD i
        defaultRoomGrid).2.cell r2 c2 = some s2)
    (hadj : Adjacent8 r1 c1 r2 c2) :
    s1.department ≠ s2.department ∧ s1.subject_code ≠ s2.subject_code := by
  have hok := allocateSeats_strict_gridsOk students rooms d t
  set st := allocateSeats strictConflictCheck students rooms d t with hst
  by_cases hi : i < st.grids.length
  · have hmem : st.grids.getD i defaultRoomGrid ∈ st.grids := by
      rw [List.getD_eq_getElem st.grids defaultRoomGrid hi]
      exact List.getElem_mem hi
    have := (hok _ hmem).2 r1 c1 r2 c2 s1 s2 h1 h2 hadj
    unfold conflictsWith at this
    simp only [Bool.or_eq_false_iff, decide_eq_false_iff_not] at this
    exact this
  · rw [List.getD_eq_default st.grids defaultRoomGrid (by omega)] at h1
    exact absurd h1 (by simp [defaultRoomGrid, emptyGrid])

/-- Witness for C2: two students of different departments and subjects end
up side by side in a 1×2 room; the theorem yields the disequalities. -/
theorem strict_no_adjacent_conflicts_witness :
    (((allocateSeats strictConflictCheck
        [⟨"S1", "A", "CSE", "SUB1"⟩, ⟨"S2", "B", "ECE", "SUB2"⟩]
        [⟨"R1", 1, 2, 2⟩] "2026-01-01" "09:00").grids.getD 0
        defaultRoomGrid).2.cell 0 0 = some ⟨"S1", "A", "CSE", "SUB1"⟩)
    ∧ (((allocateSeats strictConflictCheck
        [⟨"S1", "A", "CSE", "SUB1"⟩, ⟨"S2", "B", "ECE", "SUB2"⟩]
        [⟨"R1", 1, 2, 2⟩] "2026-01-01" "09:00").grids.getD 0
        defaultRoomGrid).2.cell 0 1 = some ⟨"S2", "B", "ECE", "SUB2"⟩)
    ∧ Adjacent8 0 0 0 1
    ∧ ((Student.mk "S1" "A" "CSE" "SUB1").department
          ≠ (Student.mk "S2" "B" "ECE" "SUB2").department
        ∧ (Student.mk "S1" "A" "CSE" "SUB1").subject_code
          ≠ (Student.mk "S2" "B" "ECE" "SUB2").subject_code) := by
  have hadj : Adjacent8 0 0 0 1 := by
    refine ⟨(0, 1), by decide, by omega, by omega⟩
  have h1 : ((allocateSeats strictConflictCheck
      [⟨"S1", "A", "CSE", "SUB1"⟩, ⟨"S2", "B", "ECE", "SUB2"⟩]
      [⟨"R1", 1, 2, 2⟩] "2026-01-01" "09:00").grids.getD 0
      defaultRoomGrid).2.cell 0 0 = some ⟨"S1", "A", "CSE", "SUB1"⟩ := by decide
  have h2 : ((allocateSeats strictConflictCheck
      [⟨"S1", "A", "CSE", "SUB1"⟩, ⟨"S2", "B", "ECE", "SUB2"⟩]
      [⟨"R1", 1, 2, 2⟩] "2026-01-01" "09:00").grids.getD 0
      defaultRoomGrid).2.cell 0 1 = some ⟨"S2", "B", "ECE", "SUB2"⟩ := by decide
  exact ⟨h1, h2, hadj,
    strict_no_adjacent_conflicts _ _ _ _ 0 0 0 0 1 _ _ h1 h2 hadj⟩

/-- Two inserted seating rows occupying the same seat of the same room. -/
def sameSeatPos (a b : SeatRecord) : Prop :=
  a.room_id = b.room_id ∧ a.seat_row = b.seat_row ∧ a.seat_col = b.seat_col

/-- The correspondence invariant of `_allocate_seats`: the grid occupancies
and the inserted `seating_arrangements` rows determine each other, all rows
carry the run's session key and 1-based coordinates, and no two rows share
a seat. -/
structure AllocInv (d t : String) (rooms : List Room) (st : AllocState) :
    Prop where
  fstEq : st.grids.map Prod.fst = rooms
  wf : ∀ pr ∈ st.grids, wfGrid pr.2
  corr : ∀ pr ∈ st.grids, ∀ r c (s : Student),
    pr.2.cell r c = some s ↔
      (⟨s, pr.1.room_id, r + 1, c + 1, d, t⟩ : SeatRecord) ∈ st.seatRows
  sess : ∀ e ∈ st.seatRows,
    e.exam_date = d ∧ e.session_time = t ∧ 1 ≤ e.seat_row ∧ 1 ≤ e.seat_col
  posOk : st.seatRows.Pairwise fun a b => ¬ sameSeatPos a b

theorem allocInv_init (d t : String) (rooms : List Room) :
    AllocInv d t rooms (initState rooms) := by
  refine ⟨?_, ?_, ?_, ?_, ?_⟩
  · show (rooms.map fun room => (room, emptyGrid room)).map Prod.fst = rooms
    induction rooms with
    | nil => rfl
    | cons a l ih => simpa using ih
  · intro pr hpr
    simp only [initState, List.mem_map] at hpr
    obtain ⟨room, _, rfl⟩ := hpr
    intro r c _
    rfl
  · intro pr hpr r c s
    simp only [initState, List.mem_map] at hpr
    obtain ⟨room, _, rfl⟩ := hpr
    constructor
    · intro hcell
      exact absurd hcell (by simp [emptyGrid])
    · intro hmem
      exact absurd hmem (by simp [initState])
  · intro e he
    exact absurd he (by simp [initState])
  · simp [initState]

theorem allocStep_inv (check : ConflictCheck) (d t : String)
    (rooms : List Room) (hnd : (rooms.map Room.room_id).Nodup)
    (st : AllocState) (s : Student) (h : AllocInv d t rooms st) :
    AllocInv d t rooms (allocStep check d t st s) := by
  unfold allocStep
  cases halloc : allocInRooms check s d t st.grids with
  | none => exact ⟨h.fstEq, h.wf, h.corr, h.sess, h.posOk⟩
  | some p =>
    obtain ⟨gs', r⟩ := p
    obtain ⟨pre, room, g, post, row, col, hgs, hgs', hf, hr⟩ :=
      allocInRooms_some halloc
    obtain ⟨hrow, hcol, hempty, hcheck⟩ := findSeatInGrid_spec hf
    have hmemg : (room, g) ∈ st.grids := by
      rw [hgs]
      exact List.mem_append_right _ (List.mem_cons_self _ _)
    have hwfg : wfGrid g := (h.wf _ hmemg)
    have hcorrg := h.corr _ hmemg
    have hidsEq : st.grids.map (fun pr => pr.1.room_id) = rooms.map Room.room_id := by
      rw [← h.fstEq, List.map_map]
      rfl
    have hnd' : (st.grids.map fun pr => pr.1.room_id).Nodup := by
      rw [hidsEq]; exact hnd
    have hdiff : ∀ pr : Room × Grid, pr ∈ pre ∨ pr ∈ post →
        pr.1.room_id ≠ room.room_id := by
      intro pr hpr
      rw [hgs, List.map_append, List.map_cons, List.nodup_append] at hnd'
      rcases hpr with hpr | hpr
      · intro he
        exact hnd'.2.2 (List.mem_map_of_mem _ hpr)
          (by rw [he]; exact List.mem_cons_self _ _)
      · have hnotin : room.room_id ∉ post.map fun pr => pr.1.room_id :=
          (List.nodup_cons.mp hnd'.2.1).1
        intro he
        exact hnotin (he ▸ List.mem_map_of_mem _ hpr)
    have hfresh : ∀ e ∈ st.seatRows,
        ¬ sameSeatPos e ⟨s, room.room_id, row + 1, col + 1, d, t⟩ := by
      intro e he hsame
      obtain ⟨hed, het, her, hec⟩ := h.sess e he
      obtain ⟨h_room, h_row, h_col⟩ := hsame
      have he' : e = ⟨e.student, room.room_id, row + 1, col + 1, d, t⟩ := by
        obtain ⟨stu, rid, sr, sc, ed, tt⟩ := e
        dsimp only at h_room h_row h_col hed het
        subst h_room h_row h_col hed het
        rfl
      have hcell := (hcorrg row col e.student).mpr (by rw [← he']; exact he)
      rw [hempty] at hcell
      exact Option.noConfusion hcell
    subst hr
    refine ⟨?_, ?_, ?_, ?_, ?_⟩
    · have e1 : gs'.map Prod.fst = st.grids.map Prod.fst := by
        rw [hgs, hgs']
        simp
      simpa only [e1] using h.fstEq
    · intro pr hpr
      simp only at hpr
      rw [hgs'] at hpr
      rcases List.mem_append.mp hpr with hpre | hrest
      · exact h.wf pr (by rw [hgs]; exact List.mem_append_left _ hpre)
      · rcases List.mem_cons.mp hrest with rfl | hpost
        · exact placeStudent_wf hwfg hrow hcol
        · exact h.wf pr
            (by rw [hgs]; exact List.mem_append_right _ (List.mem_cons_of_mem _ hpost))
    · intro pr hpr r c s'
      simp only at hpr
      rw [hgs'] at hpr
      have hmemNew : ∀ (e : SeatRecord),
          e ∈ st.seatRows ++ [⟨s, room.room_id, row + 1, col + 1, d, t⟩]
            ↔ e ∈ st.seatRows ∨ e = ⟨s, room.room_id, row + 1, col + 1, d, t⟩ := by
        intro e
        rw [List.mem_append, List.mem_singleton]
      rcases List.mem_append.mp hpr with hpre | hrest
      · have hne := hdiff pr (Or.inl hpre)
        have hold := h.corr pr (by rw [hgs]; exact List.mem_append_left _ hpre) r c s'
        rw [hold]
        constructor
        · intro hmem
          exact (hmemNew _).mpr (Or.inl hmem)
        · intro hmem
          rcases (hmemNew _).mp hmem with hmem | hmem
          · exact hmem
          · exact absurd (congrArg SeatRecord.room_id hmem) (by simpa using hne)
      · rcases List.mem_cons.mp hrest with rfl | hpost
        · -- the updated room
          rw [placeStudent_cell]
          by_cases hrc : r = row ∧ c = col
          · obtain ⟨rfl, rfl⟩ := hrc
            rw [if_pos ⟨rfl, rfl⟩]
            constructor
            · intro hs
              rw [Option.some_inj] at hs
              subst hs
              exact (hmemNew _).mpr (Or.inr rfl)
            · intro hmem
              rcases (hmemNew _).mp hmem with hmem | hmem
              · exact absurd (hfresh _ hmem) (by simp [sameSeatPos])
              · have : s' = s := by
                  cases hmem
                  rfl
                rw [this]
          · rw [if_neg hrc]
            rw [hcorrg r c s']
            constructor
            · intro hmem
              exact (hmemNew _).mpr (Or.inl hmem)
            · intro hmem
              rcases (hmemNew _).mp hmem with hmem | hmem
              · exact hmem
              · exfalso
                have h1 : r + 1 = row + 1 := congrArg SeatRecord.seat_row hmem
                have h2 : c + 1 = col + 1 := congrArg SeatRecord.seat_col hmem
                exact hrc ⟨by omega, by omega⟩
        · have hne := hdiff pr (Or.inr hpost)
          have hold := h.corr pr
            (by rw [hgs]; exact List.mem_append_right _ (List.mem_cons_of_mem _ hpost)) r c s'
          rw [hold]
          constructor
          · intro hmem
            exact (hmemNew _).mpr (Or.inl hmem)
          · intro hmem
            rcases (hmemNew _).mp hmem with hmem | hmem
            · exact hmem
            · exact absurd (congrArg SeatRecord.room_id hmem) (by simpa using hne)
    · intro e he
      simp only at he
      rcases List.mem_append.mp he with he | he
      · exact h.sess e he
      · rw [List.mem_singleton] at he
        subst he
        exact ⟨rfl, rfl, by dsimp only; omega, by dsimp only; omega⟩
    · simp only
      rw [List.pairwise_append]
      exact ⟨h.posOk, List.pairwise_singleton _ _,
        fun a ha b hb => by rw [List.mem_singleton] at hb; subst hb; exact hfresh a ha⟩

theorem allocateSeats_inv (check : ConflictCheck) (students : List Student)
    (rooms : List Room) (d t : String)
    (hnd : (rooms.map Room.room_id).Nodup) :
    AllocInv d t rooms (allocateSeats check students rooms d t) := by
  unfold allocateSeats
  have hinit := allocInv_init d t rooms
  generalize hst : initState rooms = st at hinit
  clear hst
  induction students generalizing st with
  | nil => exact hinit
  | cons s rest ih =>
    exact ih _ (allocStep_inv check d t rooms hnd st s hinit)

/-- C4: over the rows inserted by one allocation run (any conflict policy),
no two rows share the same room and (row, col) seat position; together with
the run's fixed session key this makes (room_id, row, col, session_key)
unique.  The hypothesis that the available rooms carry distinct `room_id`s
mirrors the `UNIQUE` constraint on `rooms.room_id`. -/
theorem seat_positions_unique (check : ConflictCheck)
    (students : List Student) (rooms : List Room) (d t : String)
    (hnd : (rooms.map Room.room_id).Nodup) :
    (allocateSeats check students rooms d t).seatRows.Pairwise
      (fun a b => ¬ sameSeatPos a b) :=
  (allocateSeats_inv check students rooms d t hnd).posOk

/-- Witness for C4: a strict run of two same-subject students over two
rooms of one seat each. -/
theorem seat_positions_unique_witness :
    ((([⟨"R1", 1, 1, 1⟩, ⟨"R2", 1, 1, 1⟩] : List Room).map Room.room_id).Nodup)
    ∧ (allocateSeats strictConflictCheck
        [⟨"S1", "A", "CSE", "SUB1"⟩, ⟨"S2", "B", "CSE", "SUB1"⟩]
        [⟨"R1", 1, 1, 1⟩, ⟨"R2", 1, 1, 1⟩] "2026-01-01" "09:00").seatRows.Pairwise
        (fun a b => ¬ sameSeatPos a b) :=
  ⟨by decide,
    seat_positions_unique strictConflictCheck
      [⟨"S1", "A", "CSE", "SUB1"⟩, ⟨"S2", "B", "CSE", "SUB1"⟩]
      [⟨"R1", 1, 1, 1⟩, ⟨"R2", 1, 1, 1⟩] "2026-01-01" "09:00" (by decide)⟩

/-! ## The Moderate policy (C3) -/

/-- The claim-side check of one cell: if occupied, its occupant has at most
one orthogonal neighbor sharing department or subject. -/
def cellModerateOk (g : Grid) (r c : Nat) : Bool :=
  match g.cell r c with
  | some s => moderateConflictCount s g r c ≤ 1
  | none => true

/-- The claim as stated for a finished run: every placed seat of every room
grid has at most one orthogonal conflicting neighbor. -/
def ModerateClaimHolds (st : AllocState) : Prop :=
  ∀ i, i < st.grids.length →
    ∀ r, r < (st.grids.getD i defaultRoomGrid).2.rows →
      ∀ c, c < (st.grids.getD i defaultRoomGrid).2.cols →
        cellModerateOk (st.grids.getD i defaultRoomGrid).2 r c = true

/-- C3 (counterexample): a Moderate-policy run after which a placed seat
has TWO orthogonal conflicting neighbors.  Three same-department students
fill a 3×1 room; each placement saw at most one conflicting neighbor, but
the middle student ends up between two same-department neighbors. -/
theorem moderate_claim_counterexample :
    ¬ ModerateClaimHolds (allocateSeats moderateConflictCheck
      [⟨"S1", "A", "CSE", "SUB1"⟩, ⟨"S2", "B", "CSE", "SUB2"⟩,
        ⟨"S3", "C", "CSE", "SUB3"⟩]
      [⟨"R1", 3, 1, 3⟩] "2026-01-01" "09:00") := by
  unfold ModerateClaimHolds
  decide

/-- Rows occupying orthogonally adjacent seats (1-based coordinates,
compared over ℤ). -/
def orthoAdjRec (e center : SeatRecord) : Bool :=
  orthoDirections.any fun dd =>
    decide ((e.seat_row : Int) = (center.seat_row : Int) + dd.1) &&
      decide ((e.seat_col : Int) = (center.seat_col : Int) + dd.2)

/-- Among the first `k` inserted rows, how many sit orthogonally adjacent
to the `k`-th inserted row, in the same room, sharing its department or
subject — i.e. the conflicting neighbors the `k`-th candidate already had
at the moment it was placed. -/
def conflictingEarlier (l : List SeatRecord) (k : Nat) : Nat :=
  match l[k]? with
  | some e =>
    ((l.take k).filter fun e' =>
      decide (e'.room_id = e.room_id) && orthoAdjRec e' e
        && conflictsWith e'.student e.student).length
  | none => 0

theorem conflictingEarlier_append_lt (l : List SeatRecord) (a : SeatRecord)
    (k : Nat) (hk : k < l.length) :
    conflictingEarlier (l ++ [a]) k = conflictingEarlier l k := by
  unfold conflictingEarlier
  rw [List.getElem?_append, if_pos hk]
  cases l[k]? with
  | none => rfl
  | some e =>
    have ht : (l ++ [a]).take k = l.take k := by
      rw [List.take_append_eq_append_take]
      have h0 : k - l.length = 0 := by omega
      rw [h0]
      simp
    rw [ht]

theorem conflictingEarlier_append_self (l : List SeatRecord) (a : SeatRecord) :
    conflictingEarlier (l ++ [a]) l.length
      = (l.filter fun e' => decide (e'.room_id = a.room_id)
          && orthoAdjRec e' a && conflictsWith e'.student a.student).length := by
  unfold conflictingEarlier
  have h1 : (l ++ [a])[l.length]? = some a := by
    rw [List.getElem?_append_right (Nat.le_refl _)]
    simp
  rw [h1]
  have h2 : (l ++ [a]).take l.length = l := by
    rw [List.take_append_eq_append_take]
    simp
  rw [h2]

theorem conflictingEarlier_oob (l : List SeatRecord) (k : Nat)
    (h : l.length ≤ k) : conflictingEarlier l k = 0 := by
  unfold conflictingEarlier
  rw [List.getElem?_eq_none h]

theorem eq_of_mem_of_length_le_one {α : Type} {l : List α} (h : l.length ≤ 1)
    {a b : α} (ha : a ∈ l) (hb : b ∈ l) : a = b := by
  cases l with
  | nil => exact absurd ha (by simp)
  | cons x tl =>
    cases tl with
    | nil =>
      rw [List.mem_singleton] at ha hb
      rw [ha, hb]
    | cons y tl2 => simp at h

theorem filter_conflicting_le_one (d t : String) (rooms : List Room)
    (st : AllocState) (hinv : AllocInv d t rooms st) (room : Room) (g : Grid)
    (hmemg : (room, g) ∈ st.grids) (s : Student) (row col : Nat)
    (hempty : g.cell row col = none)
    (hcheck : moderateConflictCheck s g row col = false) :
    (st.seatRows.filter fun e' => decide (e'.room_id = room.room_id)
        && orthoAdjRec e' ⟨s, room.room_id, row + 1, col + 1, d, t⟩
        && conflictsWith e'.student s).length ≤ 1 := by
  have hwfg : wfGrid g := hinv.wf _ hmemg
  have hcorrg := hinv.corr _ hmemg
  have hcount : moderateConflictCount s g row col ≤ 1 := by
    unfold moderateConflictCheck at hcheck
    simp only [decide_eq_false_iff_not, Nat.not_lt] at hcheck
    omega
  set P : SeatRecord → Bool := fun e' => decide (e'.room_id = room.room_id)
    && orthoAdjRec e' ⟨s, room.room_id, row + 1, col + 1, d, t⟩
    && conflictsWith e'.student s with hP
  have hkey : ∀ e' ∈ st.seatRows.filter P, ∃ dd ∈ orthoDirections,
      (match neighborAt g row col dd with
        | some adjacent => conflictsWith adjacent s
        | none => false) = true
      ∧ (e'.seat_row : Int) = ((row : Int) + 1) + dd.1
      ∧ (e'.seat_col : Int) = ((col : Int) + 1) + dd.2 := by
    intro e' he'
    rw [List.mem_filter] at he'
    obtain ⟨hmem, hPe⟩ := he'
    rw [hP] at hPe
    simp only [Bool.and_eq_true, decide_eq_true_eq] at hPe
    obtain ⟨⟨hroomEq, hadj⟩, hconf⟩ := hPe
    unfold orthoAdjRec at hadj
    rw [List.any_eq_true] at hadj
    obtain ⟨dd, hdd, hddeq⟩ := hadj
    simp only [Bool.and_eq_true, decide_eq_true_eq] at hddeq
    obtain ⟨hre, hce⟩ := hddeq
    obtain ⟨hed, het, her, hec⟩ := hinv.sess e' hmem
    have he'' : e' = ⟨e'.student, room.room_id, (e'.seat_row - 1) + 1,
        (e'.seat_col - 1) + 1, d, t⟩ :=
      SeatRecord.ext rfl hroomEq (by dsimp only; omega) (by dsimp only; omega)
        hed het
    have hcell : g.cell (e'.seat_row - 1) (e'.seat_col - 1) = some e'.student :=
      (hcorrg _ _ _).mpr (by rw [← he'']; exact hmem)
    have hre' : ((e'.seat_row - 1 : Nat) : Int) = (row : Int) + dd.1 := by
      omega
    have hce' : ((e'.seat_col - 1 : Nat) : Int) = (col : Int) + dd.2 := by
      omega
    have hn := neighborAt_of_cell hwfg hcell hre' hce'
    refine ⟨dd, hdd, ?_, by omega, by omega⟩
    rw [hn]
    exact hconf
  by_contra hgt
  push_neg at hgt
  rcases hfil : st.seatRows.filter P with _ | ⟨e1, tl⟩
  · rw [hfil] at hgt
    simp at hgt
  rcases htl : tl with _ | ⟨e2, rest⟩
  · rw [hfil, htl] at hgt
    simp at hgt
  subst htl
  have he1 : e1 ∈ st.seatRows.filter P := by
    rw [hfil]
    exact List.mem_cons_self _ _
  have he2 : e2 ∈ st.seatRows.filter P := by
    rw [hfil]
    exact List.mem_cons_of_mem _ (List.mem_cons_self _ _)
  have hpw : (st.seatRows.filter P).Pairwise fun a b => ¬ sameSeatPos a b :=
    hinv.posOk.sublist (List.filter_sublist _)
  rw [hfil] at hpw
  have hne12 : ¬ sameSeatPos e1 e2 :=
    (List.pairwise_cons.mp hpw).1 e2 (List.mem_cons_self _ _)
  obtain ⟨dd1, hdd1, hpred1, hre1, hce1⟩ := hkey e1 he1
  obtain ⟨dd2, hdd2, hpred2, hre2, hce2⟩ := hkey e2 he2
  have hroom1 : e1.room_id = room.room_id := by
    have := (List.mem_filter.mp he1).2
    rw [hP] at this
    simp only [Bool.and_eq_true, decide_eq_true_eq] at this
    exact this.1.1
  have hroom2 : e2.room_id = room.room_id := by
    have := (List.mem_filter.mp he2).2
    rw [hP] at this
    simp only [Bool.and_eq_true, decide_eq_true_eq] at this
    exact this.1.1
  have hddne : dd1 ≠ dd2 := by
    intro he
    subst he
    exact hne12 ⟨hroom1.trans hroom2.symm, by omega, by omega⟩
  have hmem1 : dd1 ∈ orthoDirections.filter fun dd =>
      match neighborAt g row col dd with
      | some adjacent => conflictsWith adjacent s
      | none => false :=
    List.mem_filter.mpr ⟨hdd1, hpred1⟩
  have hmem2 : dd2 ∈ orthoDirections.filter fun dd =>
      match neighborAt g row col dd with
      | some adjacent => conflictsWith adjacent s
      | none => false :=
    List.mem_filter.mpr ⟨hdd2, hpred2⟩
  exact hddne (eq_of_mem_of_length_le_one hcount hmem1 hmem2)

theorem allocStep_moderate_bound (d t : String) (rooms : List Room)
    (st : AllocState) (s : Student) (hinv : AllocInv d t rooms st)
    (hb : ∀ k, conflictingEarlier st.seatRows k ≤ 1) :
    ∀ k, conflictingEarlier
      (allocStep moderateConflictCheck d t st s).seatRows k ≤ 1 := by
  intro k
  unfold allocStep
  cases halloc : allocInRooms moderateConflictCheck s d t st.grids with
  | none => exact hb k
  | some p =>
    obtain ⟨gs', r⟩ := p
    obtain ⟨pre, room, g, post, row, col, hgs, hgs', hf, hr⟩ :=
      allocInRooms_some halloc
    obtain ⟨hrow, hcol, hempty, hcheck⟩ := findSeatInGrid_spec hf
    have hmemg : (room, g) ∈ st.grids := by
      rw [hgs]
      exact List.mem_append_right _ (List.mem_cons_self _ _)
    show conflictingEarlier (st.seatRows ++ [r]) k ≤ 1
    rcases Nat.lt_trichotomy k st.seatRows.length with hk | hk | hk
    · rw [conflictingEarlier_append_lt _ _ _ hk]
      exact hb k
    · subst hk
      rw [conflictingEarlier_append_self]
      subst hr
      exact filter_conflicting_le_one d t rooms st hinv room g hmemg s row col
        hempty hcheck
    · rw [conflictingEarlier_oob]
      · omega
      · simp
        omega

/-- C3 (amended): under the Moderate conflict policy, every candidate has,
at the moment it is placed, at most one orthogonal neighbor among the
already-seated candidates of its room sharing its department or subject
(the moderate check bounds conflicts only at placement time; later
placements may raise a seat's final neighbor-conflict count above one). -/
theorem moderate_at_most_one_conflict_at_placement (students : List Student)
    (rooms : List Room) (d t : String)
    (hnd : (rooms.map Room.room_id).Nodup) (k : Nat) :
    conflictingEarlier
      (allocateSeats moderateConflictCheck students rooms d t).seatRows k ≤ 1 := by
  unfold allocateSeats
  have main : ∀ (l : List Student) (st : AllocState), AllocInv d t rooms st →
      (∀ j, conflictingEarlier st.seatRows j ≤ 1) →
      ∀ j, conflictingEarlier
        ((l.foldl (allocStep moderateConflictCheck d t) st)).seatRows j ≤ 1 := by
    intro l
    induction l with
    | nil =>
      intro st _ hb j
      exact hb j
    | cons s rest ih =>
      intro st hinv hb j
      exact ih _ (allocStep_inv moderateConflictCheck d t rooms hnd st s hinv)
        (allocStep_moderate_bound d t rooms st s hinv hb) j
  refine main students (initState rooms) (allocInv_init d t rooms) ?_ k
  intro j
  rw [conflictingEarlier_oob]
  · omega
  · simp [initState]

/-- Witness for the amended C3 theorem: the 3-student run of the
counterexample, whose every placement saw at most one conflicting
neighbor. -/
theorem moderate_at_most_one_conflict_at_placement_witness :
    ((([⟨"R1", 3, 1, 3⟩] : List Room).map Room.room_id).Nodup)
    ∧ conflictingEarlier
      (allocateSeats moderateConflictCheck
        [⟨"S1", "A", "CSE", "SUB1"⟩, ⟨"S2", "B", "CSE", "SUB2"⟩,
          ⟨"S3", "C", "CSE", "SUB3"⟩]
        [⟨"R1", 3, 1, 3⟩] "2026-01-01" "09:00").seatRows 2 ≤ 1 :=
  ⟨by decide,
    moderate_at_most_one_conflict_at_placement
      [⟨"S1", "A", "CSE", "SUB1"⟩, ⟨"S2", "B", "CSE", "SUB2"⟩,
        ⟨"S3", "C", "CSE", "SUB3"⟩]
      [⟨"R1", 3, 1, 3⟩] "2026-01-01" "09:00" (by decide) 2⟩

/-! ## `SeatingAlgorithm.validate_arrangement` (C10)

The validator reads all active rows of the session joined with student and
subject data (`ORDER BY room_id, seat_row, seat_col`), groups them by room,
builds a per-room `(seat_row, seat_col) → seat` map, and for every seat
emits one conflict record per conflicting neighbor among the 8 adjacent
positions.  Grouping by room and looking up in the per-room map is modelled
by a single pass whose lookup is keyed on `(room_id, seat_row, seat_col)`:
for position-distinct rows this produces exactly the same records. -/

/-- A row of the validator's query: a `seating_arrangements` row joined with
the student's name/department and the subject. -/
structure SeatEntry where
  student_id : String
  student_name : String
  department : String
  subject_code : String
  room_id : String
  seat_row : Nat
  seat_col : Nat
deriving DecidableEq, Repr

/-- Two rows denoting the same seat of the same room. -/
def entrySamePos (a b : SeatEntry) : Prop :=
  a.room_id = b.room_id ∧ a.seat_row = b.seat_row ∧ a.seat_col = b.seat_col

instance (a b : SeatEntry) : Decidable (entrySamePos a b) :=
  inferInstanceAs (Decidable (a.room_id = b.room_id
    ∧ a.seat_row = b.seat_row ∧ a.seat_col = b.seat_col))

/-- The `position_map` lookup: the seat stored at a given room and
(possibly out-of-range, hence integer) position. -/
def posFind (seats : List SeatEntry) (room : String) (p : Int × Int) :
    Option SeatEntry :=
  seats.find? fun e => decide (e.room_id = room)
    && decide ((e.seat_row : Int) = p.1) && decide ((e.seat_col : Int) = p.2)

/-- The validator's conflict condition:
`seat['department'] == adj_seat['department'] or
seat['subject_code'] == adj_seat['subject_code']`. -/
def entryConflict (s adj : SeatEntry) : Prop :=
  s.department = adj.department ∨ s.subject_code = adj.subject_code

instance (s adj : SeatEntry) : Decidable (entryConflict s adj) :=
  inferInstanceAs (Decidable (s.department = adj.department
    ∨ s.subject_code = adj.subject_code))

/-- `SeatingAlgorithm.validate_arrangement`: one `(student1, student2)`
conflict record per seat and conflicting adjacent neighbor. -/
def validateArrangement (seats : List SeatEntry) :
    List (SeatEntry × SeatEntry) :=
  seats.flatMap fun s =>
    strictDirections.filterMap fun dd =>
      match posFind seats s.room_id
          ((s.seat_row : Int) + dd.1, (s.seat_col : Int) + dd.2) with
      | some adj => if entryConflict s adj then some (s, adj) else none
      | none => none

theorem entryConflict_comm (a b : SeatEntry) :
    entryConflict a b ↔ entryConflict b a :=
  or_congr eq_comm eq_comm

theorem posFind_eq_self {seats : List SeatEntry}
    (hnd : seats.Pairwise fun a b => ¬ entrySamePos a b)
    {e : SeatEntry} (he : e ∈ seats) :
    posFind seats e.room_id ((e.seat_row : Int), (e.seat_col : Int))
      = some e := by
  induction seats with
  | nil => exact absurd he (by simp)
  | cons x tl ih =>
    rw [List.pairwise_cons] at hnd
    rcases List.mem_cons.mp he with rfl | he'
    · unfold posFind
      rw [List.find?_cons_of_pos]
      simp
    · unfold posFind
      rw [List.find?_cons_of_neg]
      · exact ih hnd.2 he'
      · refine fun hpx => ?_
        simp only [Bool.and_eq_true, decide_eq_true_eq, Nat.cast_inj] at hpx
        exact hnd.1 e he' ⟨hpx.1.1, hpx.1.2, hpx.2⟩

theorem mem_validateArrangement {seats : List SeatEntry}
    {p : SeatEntry × SeatEntry} :
    p ∈ validateArrangement seats
      ↔ p.1 ∈ seats ∧ ∃ dd ∈ strictDirections,
        posFind seats p.1.room_id
          ((p.1.seat_row : Int) + dd.1, (p.1.seat_col : Int) + dd.2) = some p.2
        ∧ entryConflict p.1 p.2 := by
  unfold validateArrangement
  rw [List.mem_flatMap]
  constructor
  · rintro ⟨s, hs, hmem⟩
    rw [List.mem_filterMap] at hmem
    obtain ⟨dd, hdd, heq⟩ := hmem
    cases hpf : posFind seats s.room_id
        ((s.seat_row : Int) + dd.1, (s.seat_col : Int) + dd.2) with
    | none =>
      rw [hpf] at heq
      exact absurd heq (by simp)
    | some adj =>
      rw [hpf] at heq
      dsimp only at heq
      by_cases hc : entryConflict s adj
      · rw [if_pos hc] at heq
        rw [Option.some_inj] at heq
        subst heq
        exact ⟨hs, dd, hdd, hpf, hc⟩
      · rw [if_neg hc] at heq
        exact absurd heq (by simp)
  · rintro ⟨hs, dd, hdd, hpf, hc⟩
    refine ⟨p.1, hs, List.mem_filterMap.mpr ⟨dd, hdd, ?_⟩⟩
    rw [hpf]
    dsimp only
    rw [if_pos hc]

theorem strictDirections_nodup : strictDirections.Nodup := by decide

/-- The symmetry half of C10: every emitted conflict record has its
mirrored record in the output. -/
theorem validate_symm {seats : List SeatEntry}
    (hnd : seats.Pairwise fun a b => ¬ entrySamePos a b)
    {p : SeatEntry × SeatEntry} (hp : p ∈ validateArrangement seats) :
    (p.2, p.1) ∈ validateArrangement seats := by
  rw [mem_validateArrangement] at hp ⊢
  obtain ⟨hs, dd, hdd, hpf, hc⟩ := hp
  have hadj_mem : p.2 ∈ seats := List.mem_of_find?_eq_some hpf
  have hpred := List.find?_some hpf
  simp only [Bool.and_eq_true, decide_eq_true_eq] at hpred
  obtain ⟨⟨hroom, hrow⟩, hcol⟩ := hpred
  refine ⟨hadj_mem, (-dd.1, -dd.2), strictDirections_neg_mem dd hdd, ?_,
    (entryConflict_comm p.1 p.2).mp hc⟩
  have e1 : (p.2.seat_row : Int) + (-dd.1, -dd.2).1 = (p.1.seat_row : Int) := by
    dsimp only
    omega
  have e2 : (p.2.seat_col : Int) + (-dd.1, -dd.2).2 = (p.1.seat_col : Int) := by
    dsimp only
    omega
  rw [hroom, e1, e2]
  exact posFind_eq_self hnd hs

/-- Two rows in adjacent-conflict: same room, 8-adjacent seats, sharing
department or subject. -/
def entryAdjConflict (s adj : SeatEntry) : Prop :=
  s.room_id = adj.room_id
  ∧ (∃ dd ∈ strictDirections, (adj.seat_row : Int) = (s.seat_row : Int) + dd.1
      ∧ (adj.seat_col : Int) = (s.seat_col : Int) + dd.2)
  ∧ entryConflict s adj

instance (s adj : SeatEntry) : Decidable (entryAdjConflict s adj) :=
  inferInstanceAs (Decidable (_ ∧ _ ∧ _))

/-- The number of distinct conflicting seat pairs of an arrangement: index
pairs `i < j` whose rows are in adjacent-conflict. -/
def numConflictPairs (seats : List SeatEntry) : Nat :=
  (Finset.univ.filter fun ij : Fin seats.length × Fin seats.length =>
    ij.1 < ij.2 ∧ entryAdjConflict (seats.get ij.1) (seats.get ij.2)).card

theorem entryAdjConflict_irrefl (e : SeatEntry) : ¬ entryAdjConflict e e := by
  rintro ⟨-, ⟨dd, hdd, h1, h2⟩, -⟩
  have hz : dd = ((0 : Int), (0 : Int)) := Prod.ext (by omega) (by omega)
  rw [hz] at hdd
  exact absurd hdd (by decide)

theorem entryAdjConflict_symm {a b : SeatEntry} (h : entryAdjConflict a b) :
    entryAdjConflict b a := by
  obtain ⟨hroom, ⟨dd, hdd, h1, h2⟩, hc⟩ := h
  exact ⟨hroom.symm,
    ⟨(-dd.1, -dd.2), strictDirections_neg_mem dd hdd,
      by dsimp only; omega, by dsimp only; omega⟩,
    (entryConflict_comm a b).mp hc⟩

theorem posFind_eq_of_pos {seats : List SeatEntry}
    (hnd : seats.Pairwise fun a b => ¬ entrySamePos a b)
    {e : SeatEntry} (he : e ∈ seats) {room : String} {p : Int × Int}
    (hroom : e.room_id = room) (h1 : (e.seat_row : Int) = p.1)
    (h2 : (e.seat_col : Int) = p.2) :
    posFind seats room p = some e := by
  induction seats with
  | nil => exact absurd he (by simp)
  | cons x tl ih =>
    rw [List.pairwise_cons] at hnd
    rcases List.mem_cons.mp he with rfl | he'
    · unfold posFind
      rw [List.find?_cons_of_pos]
      simp [hroom, h1, h2]
    · unfold posFind
      rw [List.find?_cons_of_neg]
      · exact ih hnd.2 he'
      · refine fun hpx => ?_
        simp only [Bool.and_eq_true, decide_eq_true_eq] at hpx
        refine hnd.1 e he' ⟨hpx.1.1.trans hroom.symm, ?_, ?_⟩
        · have := hpx.1.2.trans h1.symm
          exact_mod_cast this
        · have := hpx.2.trans h2.symm
          exact_mod_cast this

theorem adjConflict_of_validate_mem {seats : List SeatEntry}
    {p : SeatEntry × SeatEntry} (hp : p ∈ validateArrangement seats) :
    p.1 ∈ seats ∧ p.2 ∈ seats ∧ entryAdjConflict p.1 p.2 := by
  rw [mem_validateArrangement] at hp
  obtain ⟨hs, dd, hdd, hpf, hc⟩ := hp
  have hmem2 := List.mem_of_find?_eq_some hpf
  have hpred := List.find?_some hpf
  simp only [Bool.and_eq_true, decide_eq_true_eq] at hpred
  exact ⟨hs, hmem2, hpred.1.1.symm, ⟨dd, hdd, hpred.1.2, hpred.2⟩, hc⟩

theorem validate_mem_of_adjConflict {seats : List SeatEntry}
    (hnd : seats.Pairwise fun a b => ¬ entrySamePos a b)
    {s adj : SeatEntry} (hs : s ∈ seats) (hadj : adj ∈ seats)
    (h : entryAdjConflict s adj) :
    (s, adj) ∈ validateArrangement seats := by
  rw [mem_validateArrangement]
  obtain ⟨hroom, ⟨dd, hdd, h1, h2⟩, hc⟩ := h
  exact ⟨hs, dd, hdd,
    posFind_eq_of_pos hnd hadj hroom.symm (by dsimp only; omega)
      (by dsimp only; omega), hc⟩

theorem validate_inner_fst {seats : List SeatEntry} {s : SeatEntry}
    {b : SeatEntry × SeatEntry}
    (hb : b ∈ strictDirections.filterMap fun dd =>
      match posFind seats s.room_id
          ((s.seat_row : Int) + dd.1, (s.seat_col : Int) + dd.2) with
      | some adj => if entryConflict s adj then some (s, adj) else none
      | none => none) :
    b.1 = s := by
  rw [List.mem_filterMap] at hb
  obtain ⟨dd, _, heq⟩ := hb
  cases hpf : posFind seats s.room_id
      ((s.seat_row : Int) + dd.1, (s.seat_col : Int) + dd.2) with
  | none =>
    rw [hpf] at heq
    exact absurd heq (by simp)
  | some adj =>
    rw [hpf] at heq
    dsimp only at heq
    by_cases hcf : entryConflict s adj
    · rw [if_pos hcf, Option.some_inj] at heq
      rw [← heq]
    · rw [if_neg hcf] at heq
      exact absurd heq (by simp)

theorem validate_nodup {seats : List SeatEntry}
    (hnd : seats.Pairwise fun a b => ¬ entrySamePos a b) :
    (validateArrangement seats).Nodup := by
  unfold validateArrangement
  rw [List.nodup_flatMap]
  constructor
  · intro s hs
    apply List.Nodup.filterMap ?_ strictDirections_nodup
    intro dd dd' b hb hb'
    rw [Option.mem_def] at hb hb'
    have hval : ∀ (d1 : Int × Int),
        (match posFind seats s.room_id
            ((s.seat_row : Int) + d1.1, (s.seat_col : Int) + d1.2) with
          | some adj => if entryConflict s adj then some (s, adj) else none
          | none => none) = some b →
        (b.2.seat_row : Int) = (s.seat_row : Int) + d1.1
          ∧ (b.2.seat_col : Int) = (s.seat_col : Int) + d1.2 := by
      intro d1 heq
      cases hpf : posFind seats s.room_id
          ((s.seat_row : Int) + d1.1, (s.seat_col : Int) + d1.2) with
      | none =>
        rw [hpf] at heq
        exact absurd heq (by simp)
      | some adj =>
        rw [hpf] at heq
        dsimp only at heq
        by_cases hcf : entryConflict s adj
        · rw [if_pos hcf, Option.some_inj] at heq
          have hpred := List.find?_some hpf
          simp only [Bool.and_eq_true, decide_eq_true_eq] at hpred
          rw [← heq]
          exact ⟨hpred.1.2, hpred.2⟩
        · rw [if_neg hcf] at heq
          exact absurd heq (by simp)
    obtain ⟨hr, hc⟩ := hval dd hb
    obtain ⟨hr', hc'⟩ := hval dd' hb'
    exact Prod.ext (by omega) (by omega)
  · have hne : seats.Pairwise (fun a b => a ≠ b) := by
      refine hnd.imp ?_
      intro a b h heq
      subst heq
      exact h ⟨rfl, rfl, rfl⟩
    refine hne.imp ?_
    intro a b hab x hxa hxb
    have h1 : x.1 = a := validate_inner_fst hxa
    have h2 : x.1 = b := validate_inner_fst hxb
    exact hab (h1 ▸ h2)

theorem validate_length_eq (seats : List SeatEntry)
    (hnd : seats.Pairwise fun a b => ¬ entrySamePos a b) :
    (validateArrangement seats).length = 2 * numConflictPairs seats := by
  have hnodup : seats.Nodup := by
    refine hnd.imp ?_
    intro a b h heq
    subst heq
    exact h ⟨rfl, rfl, rfl⟩
  have h1 : (validateArrangement seats).length
      = (validateArrangement seats).toFinset.card :=
    (List.toFinset_card_of_nodup (validate_nodup hnd)).symm
  set n := seats.length with hn
  set orderedSet := Finset.univ.filter fun ij : Fin n × Fin n =>
    entryAdjConflict (seats.get ij.1) (seats.get ij.2) with hord
  have hm : ∀ p : SeatEntry × SeatEntry,
      p ∈ (validateArrangement seats).toFinset →
      p.1 ∈ seats ∧ p.2 ∈ seats ∧ entryAdjConflict p.1 p.2 := fun p hp =>
    adjConflict_of_validate_mem (List.mem_toFinset.mp hp)
  have h2 : (validateArrangement seats).toFinset.card = orderedSet.card := by
    refine Finset.card_bij (fun p hp =>
      (⟨seats.indexOf p.1, List.indexOf_lt_length.mpr (hm p hp).1⟩,
        ⟨seats.indexOf p.2, List.indexOf_lt_length.mpr (hm p hp).2.1⟩))
      ?_ ?_ ?_
    · intro p hp
      rw [hord, Finset.mem_filter]
      refine ⟨Finset.mem_univ _, ?_⟩
      have hR := (hm p hp).2.2
      rw [List.indexOf_get, List.indexOf_get]
      exact hR
    · intro p hp p' hp' heq
      rw [Prod.mk.injEq, Fin.mk.injEq, Fin.mk.injEq] at heq
      have e1 : p.1 = p'.1 := by
        rw [← List.indexOf_get (List.indexOf_lt_length.mpr (hm p hp).1),
          ← List.indexOf_get (List.indexOf_lt_length.mpr (hm p' hp').1)]
        exact congrArg seats.get (Fin.ext heq.1)
      have e2 : p.2 = p'.2 := by
        rw [← List.indexOf_get (List.indexOf_lt_length.mpr (hm p hp).2.1),
          ← List.indexOf_get (List.indexOf_lt_length.mpr (hm p' hp').2.1)]
        exact congrArg seats.get (Fin.ext heq.2)
      exact Prod.ext e1 e2
    · intro b hb
      rw [hord, Finset.mem_filter] at hb
      refine ⟨(seats.get b.1, seats.get b.2), ?_, ?_⟩
      · rw [List.mem_toFinset]
        exact validate_mem_of_adjConflict hnd (seats.get_mem _ _)
          (seats.get_mem _ _) hb.2
      · rw [Prod.mk.injEq]
        constructor
        · apply Fin.ext
          exact List.get_indexOf hnodup b.1
        · apply Fin.ext
          exact List.get_indexOf hnodup b.2
  set ltSet := Finset.univ.filter fun ij : Fin n × Fin n =>
    ij.1 < ij.2 ∧ entryAdjConflict (seats.get ij.1) (seats.get ij.2) with hlt
  set gtSet := Finset.univ.filter fun ij : Fin n × Fin n =>
    ij.2 < ij.1 ∧ entryAdjConflict (seats.get ij.1) (seats.get ij.2) with hgt
  have hunion : orderedSet = ltSet ∪ gtSet := by
    ext ij
    rw [hord, hlt, hgt, Finset.mem_union, Finset.mem_filter, Finset.mem_filter,
      Finset.mem_filter]
    constructor
    · rintro ⟨hu, hR⟩
      have hne : ij.1 ≠ ij.2 := by
        intro he
        rw [he] at hR
        exact entryAdjConflict_irrefl _ hR
      rcases lt_or_gt_of_ne hne with hl | hl
      · exact Or.inl ⟨hu, hl, hR⟩
      · exact Or.inr ⟨hu, hl, hR⟩
    · rintro (⟨hu, _, hR⟩ | ⟨hu, _, hR⟩) <;> exact ⟨hu, hR⟩
  have hdisj : Disjoint ltSet gtSet := by
    rw [Finset.disjoint_left]
    intro ij hij hij'
    rw [hlt, Finset.mem_filter] at hij
    rw [hgt, Finset.mem_filter] at hij'
    exact absurd (hij.2.1.trans hij'.2.1) (lt_irrefl _)
  have hswap : gtSet.card = ltSet.card := by
    refine Finset.card_bij (fun ij _ => ij.swap) ?_ ?_ ?_
    · intro ij hij
      rw [hgt, Finset.mem_filter] at hij
      rw [hlt, Finset.mem_filter]
      exact ⟨Finset.mem_univ _, hij.2.1, entryAdjConflict_symm hij.2.2⟩
    · intro a _ b _ heq
      exact Prod.swap_injective heq
    · intro b hb
      rw [hlt, Finset.mem_filter] at hb
      refine ⟨b.swap, ?_, Prod.swap_swap b⟩
      rw [hgt, Finset.mem_filter]
      exact ⟨Finset.mem_univ _, hb.2.1, entryAdjConflict_symm hb.2.2⟩
  have hcard : orderedSet.card = ltSet.card + gtSet.card := by
    rw [hunion]
    exact Finset.card_union_of_disjoint hdisj
  rw [h1, h2, hcard, hswap]
  have : numConflictPairs seats = ltSet.card := rfl
  rw [this]
  omega

/-- C10: for position-distinct rows, `validate_arrangement` reports every
adjacent conflicting pair twice, once from each endpoint: every emitted
record `(student1, student2)` has its mirrored record in the output, and the
length of the conflict list is exactly twice the number of distinct
conflicting seat pairs. -/
theorem validate_reports_pairs_twice (seats : List SeatEntry)
    (hnd : seats.Pairwise fun a b => ¬ entrySamePos a b) :
    (∀ p ∈ validateArrangement seats, (p.2, p.1) ∈ validateArrangement seats)
    ∧ (validateArrangement seats).length = 2 * numConflictPairs seats :=
  ⟨fun _ hp => validate_symm hnd hp, validate_length_eq seats hnd⟩

/-- Witness for C10: two same-department neighbors in one room. -/
theorem validate_reports_pairs_twice_witness :
    (([⟨"S1", "A", "CSE", "SUB1", "R1", 1, 1⟩,
        ⟨"S2", "B", "CSE", "SUB2", "R1", 1, 2⟩] : List SeatEntry).Pairwise
      fun a b => ¬ entrySamePos a b)
    ∧ ((∀ p ∈ validateArrangement
          [⟨"S1", "A", "CSE", "SUB1", "R1", 1, 1⟩,
            ⟨"S2", "B", "CSE", "SUB2", "R1", 1, 2⟩],
          (p.2, p.1) ∈ validateArrangement
            [⟨"S1", "A", "CSE", "SUB1", "R1", 1, 1⟩,
              ⟨"S2", "B", "CSE", "SUB2", "R1", 1, 2⟩])
        ∧ (validateArrangement
            [⟨"S1", "A", "CSE", "SUB1", "R1", 1, 1⟩,
              ⟨"S2", "B", "CSE", "SUB2", "R1", 1, 2⟩]).length
          = 2 * numConflictPairs
            [⟨"S1", "A", "CSE", "SUB1", "R1", 1, 1⟩,
              ⟨"S2", "B", "CSE", "SUB2", "R1", 1, 2⟩]) :=
  ⟨by decide,
    validate_reports_pairs_twice
      [⟨"S1", "A", "CSE", "SUB1", "R1", 1, 1⟩,
        ⟨"S2", "B", "CSE", "SUB2", "R1", 1, 2⟩] (by decide)⟩

end ExamSeating
